import Mathlib

/-!
# graphql2sadl: translation of a parsed GraphQL document into a SADL schema

A shallow embedding of `main.go` (functions `gqlSchema`, `typeName`,
`convertTypeName`, `stringValue`, `commentValue`, `gqlEnum`, `gqlUnion`,
`gqlStruct`) together with theorems about it.

Modelling conventions.

* Go pointers to AST nodes that the GraphQL parser always fills in (`Name`,
  operation types, field types) are plain values; the optional description
  (`*ast.StringValue`, possibly nil) is an `Option String`.
* `ast.Type` is the closed sum of its three implementations `Named`, `List`,
  `NonNull`.
* The output schema is mutated in place by the Go code; here every function
  takes the schema and returns the updated schema.
* A Go `panic` and a returned `error` are the two constructors of `Failure`.
* Go strings are modelled by Lean strings.  The only string operation used is
  replacing the one-byte pattern "\n", which never occurs inside a multi-byte
  UTF-8 sequence, so working on characters agrees with working on bytes.
-/

namespace Graphql2sadl

/-! ## Source AST (package `ast` of graphql-go, the parts the translator reads) -/

namespace Ast

/-- The interface `ast.Type` with its implementations `*ast.Named` (carrying
`Name.Value`), `*ast.List` and `*ast.NonNull` (carrying their `Type`). -/
inductive GqlType where
  | named (name : String)
  | list (type : GqlType)
  | nonNull (type : GqlType)
  deriving DecidableEq, Repr

/-- The struct `ast.FieldDefinition`: `Name.Value`, `Description`, `Type`. -/
structure FieldDefinition where
  Name : String
  Description : Option String
  Typ : GqlType
  deriving DecidableEq, Repr

/-- The struct `ast.ObjectDefinition`. -/
structure ObjectDefinition where
  Name : String
  Description : Option String
  Fields : List FieldDefinition
  deriving DecidableEq, Repr

/-- The struct `ast.OperationTypeDefinition`; `Typ` is `Type.Name.Value`. -/
structure OperationTypeDefinition where
  Operation : String
  Typ : String
  deriving DecidableEq, Repr

/-- The struct `ast.SchemaDefinition`. -/
structure SchemaDefinition where
  OperationTypes : List OperationTypeDefinition
  deriving DecidableEq, Repr

/-- The struct `ast.EnumValueDefinition`. -/
structure EnumValueDefinition where
  Name : String
  Description : Option String
  deriving DecidableEq, Repr

/-- The struct `ast.EnumDefinition`. -/
structure EnumDefinition where
  Name : String
  Description : Option String
  Values : List EnumValueDefinition
  deriving DecidableEq, Repr

/-- The struct `ast.UnionDefinition`; `Types` holds each member's
`Name.Value`. -/
structure UnionDefinition where
  Name : String
  Description : Option String
  Types : List String
  deriving DecidableEq, Repr

/-- The struct `ast.InterfaceDefinition`. -/
structure InterfaceDefinition where
  Name : String
  Description : Option String
  Fields : List FieldDefinition
  deriving DecidableEq, Repr

/-- The struct `ast.InputObjectDefinition`. -/
structure InputObjectDefinition where
  Name : String
  Description : Option String
  Fields : List FieldDefinition
  deriving DecidableEq, Repr

/-- The struct `ast.ScalarDefinition`. -/
structure ScalarDefinition where
  Name : String
  Description : Option String
  deriving DecidableEq, Repr

/-- An element of `doc.Definitions` (an `ast.Node`), by the cases of the type
switch in `gqlSchema`.  `otherDef kind` is any node of another concrete type,
`kind` being what its `GetKind()` returns. -/
inductive Definition where
  | objectDef (tdef : ObjectDefinition)
  | schemaDef (tdef : SchemaDefinition)
  | enumDef (tdef : EnumDefinition)
  | unionDef (tdef : UnionDefinition)
  | interfaceDef (tdef : InterfaceDefinition)
  | inputObjectDef (tdef : InputObjectDefinition)
  | scalarDef (tdef : ScalarDefinition)
  | otherDef (kind : String)
  deriving DecidableEq, Repr

/-- The struct `ast.Document`. -/
structure Document where
  Definitions : List Definition
  deriving DecidableEq, Repr

end Ast

/-! ## Target schema (package `sadl`, the parts the translator writes) -/

namespace Sadl

/-- The struct `sadl.EnumElementDef`. -/
structure EnumElementDef where
  Symbol : String
  Comment : String := ""
  deriving DecidableEq, Repr

/-- The struct `sadl.StructFieldDef` with the `Type` and `Items` of its
embedded `TypeSpec`.  Unset strings are empty, as in Go. -/
structure StructFieldDef where
  Name : String
  Comment : String := ""
  Required : Bool := false
  Typ : String := ""
  Items : String := ""
  deriving DecidableEq, Repr

/-- The struct `sadl.TypeDef` with the `Type`, `Fields`, `Elements` and
`Variants` of its embedded `TypeSpec`. -/
structure TypeDef where
  Name : String
  Comment : String := ""
  Typ : String := ""
  Fields : List StructFieldDef := []
  Elements : List EnumElementDef := []
  Variants : List String := []
  deriving DecidableEq, Repr

/-- The struct `sadl.Schema`. -/
structure Schema where
  Name : String
  Types : List TypeDef := []
  deriving DecidableEq, Repr

end Sadl

open Ast Sadl

/-! ## Outcomes -/

/-- How a Go call can fail: by returning a non-nil `error`, or by `panic`. -/
inductive Failure where
  | error (msg : String)
  | panic (msg : String)
  deriving DecidableEq, Repr

/-- The outcome of a call that may fail. -/
abbrev Result (α : Type) := Except Failure α

instance instDecidableEqResult {α : Type} [DecidableEq α] : DecidableEq (Result α) :=
  fun a b =>
    match a, b with
    | .ok x, .ok y => if h : x = y then isTrue (by rw [h]) else isFalse (by intro e; cases e; exact h rfl)
    | .error x, .error y => if h : x = y then isTrue (by rw [h]) else isFalse (by intro e; cases e; exact h rfl)
    | .ok _, .error _ => isFalse (by intro e; cases e)
    | .error _, .ok _ => isFalse (by intro e; cases e)

/-! ## The helpers of `main.go` -/

/-- Go `typeName`: the name of a named type, "Array" for a list, panic
otherwise. -/
def typeName (t : GqlType) : Result String :=
  match t with
  | .named n => .ok n
  | .list _ => .ok "Array"
  | .nonNull _ => .error (.panic "FixMe")

/-- Go `convertTypeName`: the switch over the four GraphQL primitive names. -/
def convertTypeName (n : String) : String :=
  if n = "Int" then "Int32"
  else if n = "Float" then "Float64"
  else if n = "Boolean" then "Bool"
  else if n = "ID" then "String"
  else n

/-- Go `stringValue`: the value of a possibly nil `*ast.StringValue`. -/
def stringValue (sv : Option String) : String :=
  match sv with
  | none => ""
  | some v => v

/-- Scan of Go `strings.Replace(s, old, new, -1)` for a non-empty `old`:
`skip` counts the characters of a match still to be dropped. -/
def stringsReplaceScan (old new : List Char) : Nat → List Char → List Char
  | _, [] => []
  | skip + 1, _ :: cs => stringsReplaceScan old new skip cs
  | 0, c :: cs =>
    if old.isPrefixOf (c :: cs) then new ++ stringsReplaceScan old new (old.length - 1) cs
    else c :: stringsReplaceScan old new 0 cs

/-- Go `strings.Replace(s, old, new, -1)`: every non-overlapping occurrence of
`old`, from the left, replaced by `new`; an empty `old` matches before every
character and at the end. -/
def stringsReplaceAll (s old new : String) : String :=
  if old.data = [] then ⟨new.data ++ s.data.flatMap (fun c => c :: new.data)⟩
  else ⟨stringsReplaceScan old.data new.data 0 s.data⟩

/-- Go `commentValue`: `strings.Replace(descr, "\n", " ", -1)`. -/
def commentValue (descr : String) : String :=
  stringsReplaceAll descr "\n" " "

/-! ## Enum and union translation -/

/-- Go `gqlEnum`.  The returned error is always nil. -/
def gqlEnum (schema : Schema) (d : EnumDefinition) : Result Schema :=
  let td : TypeDef := { Name := d.Name, Typ := "Enum" }
  let td : TypeDef :=
    match d.Description with
    | some v => { td with Comment := commentValue v }
    | none => td
  let td : TypeDef := d.Values.foldl
    (fun td symdef =>
      let el : EnumElementDef := { Symbol := symdef.Name }
      let el : EnumElementDef :=
        match symdef.Description with
        | some v => { el with Comment := commentValue v }
        | none => el
      { td with Elements := td.Elements ++ [el] }) td
  .ok { schema with Types := schema.Types ++ [td] }

/-- Go `gqlUnion`.  The returned error is always nil. -/
def gqlUnion (schema : Schema) (d : UnionDefinition) : Result Schema :=
  let td : TypeDef := { Name := d.Name, Typ := "Union" }
  let td : TypeDef :=
    match d.Description with
    | some v => { td with Comment := commentValue v }
    | none => td
  let td : TypeDef := d.Types.foldl
    (fun td vardef => { td with Variants := td.Variants ++ [vardef] }) td
  .ok { schema with Types := schema.Types ++ [td] }

/-! ## Struct translation -/

/-- The body of the field loop of Go `gqlStruct` (lines 191-232): the field
definition built for one source field, or the panic it raises. -/
def gqlStructField (f : FieldDefinition) : Result StructFieldDef :=
  let fd : StructFieldDef :=
    { Name := f.Name, Comment := commentValue (stringValue f.Description) }
  match f.Typ with
  | .named n => .ok { fd with Typ := convertTypeName n }
  | .list t =>
    let fd := { fd with Typ := "Array" }
    match t with
    | .named n => .ok { fd with Items := convertTypeName n }
    | .nonNull it =>
      match it with
      | .named n => .ok { fd with Items := convertTypeName n }
      | _ => .error (.panic "inline list type not supported")
    | _ => .error (.panic "list type not supported")
  | .nonNull t =>
    let fd := { fd with Required := true }
    match t with
    | .named n => .ok { fd with Typ := convertTypeName n }
    | .list t =>
      let fd := { fd with Typ := "Array" }
      match t with
      | .named n => .ok { fd with Items := convertTypeName n }
      | .nonNull it =>
        match typeName it with
        | .ok tn => .ok { fd with Items := convertTypeName tn }
        | .error e => .error e
      | _ => .error (.panic "inline list type not supported")
    | _ =>
      match typeName t with
      | .ok tn => .ok { fd with Typ := convertTypeName tn }
      | .error e => .error e

/-- The field loop of Go `gqlStruct`: each translated field is appended to
`td.Fields`; the first panic ends the run. -/
def gqlStructLoop (td : TypeDef) : List FieldDefinition → Result TypeDef
  | [] => .ok td
  | f :: fs =>
    match gqlStructField f with
    | .ok fd => gqlStructLoop { td with Fields := td.Fields ++ [fd] } fs
    | .error e => .error e

/-- Go `gqlStruct`.  The returned error is always nil; the only failure is a
panic. -/
def gqlStruct (schema : Schema) (structDef : ObjectDefinition) : Result Schema :=
  let td : TypeDef :=
    { Name := structDef.Name
      Comment := commentValue (stringValue structDef.Description)
      Typ := "Struct" }
  match gqlStructLoop td structDef.Fields with
  | .ok td => .ok { schema with Types := schema.Types ++ [td] }
  | .error e => .error e

/-! ## The definition dispatcher -/

/-- One iteration of the loop of Go `gqlSchema` on the state made of the
schema under construction and the `ignore` map (the list of its keys).
`pretty` stands for `sadl.Pretty`, used only to render an error message. -/
def gqlSchemaStep (pretty : Definition → String) (schema : Schema) (ignore : List String)
    (d : Definition) : Result (Schema × List String) :=
  match d with
  | .objectDef tdef =>
    if tdef.Name ∈ ignore then .ok (schema, ignore)
    else
      match gqlStruct schema tdef with
      | .ok schema => .ok (schema, ignore)
      | .error e => .error e
  | .schemaDef tdef => .ok (schema, ignore ++ tdef.OperationTypes.map (fun opt => opt.Typ))
  | .enumDef tdef =>
    match gqlEnum schema tdef with
    | .ok schema => .ok (schema, ignore)
    | .error e => .error e
  | .unionDef tdef =>
    match gqlUnion schema tdef with
    | .ok schema => .ok (schema, ignore)
    | .error e => .error e
  | .interfaceDef _ => .ok (schema, ignore)
  | .inputObjectDef _ => .ok (schema, ignore)
  | .scalarDef tdef =>
    if tdef.Name = "Timestamp" then .ok (schema, ignore)
    else if tdef.Name = "UUID" then .ok (schema, ignore)
    else .error (.error ("Unsupported custom scalar: " ++ pretty d ++ "\n"))
  | .otherDef kind => .error (.error ("Unsupported definition: " ++ kind ++ "\n"))

/-- The loop of Go `gqlSchema` over `doc.Definitions`: the first failure ends
the run and no schema is returned. -/
def gqlSchemaLoop (pretty : Definition → String) (schema : Schema) (ignore : List String) :
    List Definition → Result Schema
  | [] => .ok schema
  | d :: ds =>
    match gqlSchemaStep pretty schema ignore d with
    | .ok (schema, ignore) => gqlSchemaLoop pretty schema ignore ds
    | .error e => .error e

/-- The loop of `gqlSchema` returning the whole loop state, the `ignore` map
included; `gqlSchemaLoop` is its first component. -/
def gqlSchemaRun (pretty : Definition → String) (schema : Schema) (ignore : List String) :
    List Definition → Result (Schema × List String)
  | [] => .ok (schema, ignore)
  | d :: ds =>
    match gqlSchemaStep pretty schema ignore d with
    | .ok (schema, ignore) => gqlSchemaRun pretty schema ignore ds
    | .error e => .error e

/-- Go `gqlSchema`. -/
def gqlSchema (pretty : Definition → String) (doc : Document) : Result Schema :=
  gqlSchemaLoop pretty { Name := "generatedFromGraphQL" } [] doc.Definitions

/-! ## Specification-side notions -/

/-- The names that the schema definitions among `ds` declare as operation
types. -/
def declaredRoots (ds : List Definition) : List String :=
  ds.flatMap (fun d =>
    match d with
    | .schemaDef tdef => tdef.OperationTypes.map (fun opt => opt.Typ)
    | _ => [])

/-- Some schema definition at a position before `i` declares an operation type
named `n`. -/
def declaredBefore (defs : List Definition) (i : Nat) (n : String) : Prop :=
  ∃ j, j < i ∧ ∃ sd, defs[j]? = some (.schemaDef sd) ∧ ∃ opt ∈ sd.OperationTypes, opt.Typ = n

/-- The name of the type definition expected for the definition at position
`i`: enums and unions always have one, an object has one unless a schema
definition before it declares its name as an operation type, no other kind has
one. -/
def emittedName (defs : List Definition) (i : Nat) : Option String :=
  match defs[i]? with
  | some (.enumDef tdef) => some tdef.Name
  | some (.unionDef tdef) => some tdef.Name
  | some (.objectDef tdef) =>
    if tdef.Name ∈ declaredRoots (defs.take i) then none else some tdef.Name
  | _ => none

/-- The expected sequence of output type names, in document order. -/
def expectedNames (defs : List Definition) : List String :=
  (List.range defs.length).filterMap (emittedName defs)

/-- Interface and input-object definitions. -/
def isSkipped (d : Definition) : Bool :=
  match d with
  | .interfaceDef _ => true
  | .inputObjectDef _ => true
  | _ => false

/-- The spec's comment normalization on one character. -/
def foldNewline (c : Char) : Char :=
  if c = '\n' then ' ' else c

/-- The name of the type definition that one loop iteration appends for `d`
when the ignore map holds `ignore`, if it appends one. -/
def stepName (ignore : List String) (d : Definition) : Option String :=
  match d with
  | .enumDef tdef => some tdef.Name
  | .unionDef tdef => some tdef.Name
  | .objectDef tdef => if tdef.Name ∈ ignore then none else some tdef.Name
  | _ => none

/-- The type definition `td` is a translation of the definition `d`. -/
def Produces (d : Definition) (td : TypeDef) : Prop :=
  match d with
  | .objectDef o =>
    td.Name = o.Name ∧ td.Typ = "Struct" ∧
      List.Forall₂ (fun f fd => gqlStructField f = .ok fd) o.Fields td.Fields
  | .enumDef e => td.Name = e.Name ∧ td.Typ = "Enum" ∧ td.Fields = []
  | .unionDef u => td.Name = u.Name ∧ td.Typ = "Union" ∧ td.Fields = []
  | _ => False

/-- The element name of a supported list type: `n` for a list of Named(n) or
of NonNull(Named(n)), possibly under one outer NonNull. -/
def listElementName (t : GqlType) : Option String :=
  match t with
  | .list (.named n) => some n
  | .list (.nonNull (.named n)) => some n
  | .nonNull (.list (.named n)) => some n
  | .nonNull (.list (.nonNull (.named n))) => some n
  | _ => none

/-- The `*sadl.Schema` that the caller of Go `gqlSchema` receives: the schema
on `return schema, nil`, nil on `return nil, err`, nothing after a panic. -/
def returnedSchema (r : Result Schema) : Option Schema :=
  match r with
  | .ok s => some s
  | .error _ => none

/-- A scalar definition whose name is not on the allow-list, or a definition
of an unrecognized kind. -/
def isRejected (d : Definition) : Bool :=
  match d with
  | .scalarDef tdef => !(decide (tdef.Name = "Timestamp") || decide (tdef.Name = "UUID"))
  | .otherDef _ => true
  | _ => false

/-- Schema definitions. -/
def isSchemaDefinition (d : Definition) : Bool :=
  match d with
  | .schemaDef _ => true
  | _ => false

/-- The six field type shapes of a well-formed document: Named(n) or a list
of Named(n) or NonNull(Named(n)), each possibly under one outer NonNull. -/
def isSupportedType (t : GqlType) : Bool :=
  match t with
  | .named _ => true
  | .nonNull (.named _) => true
  | .list (.named _) => true
  | .list (.nonNull (.named _)) => true
  | .nonNull (.list (.named _)) => true
  | .nonNull (.list (.nonNull (.named _))) => true
  | _ => false

/-- A definition of a well-formed document: an object whose field types are
all supported, a schema, enum, union, interface or input-object definition, or
a scalar named Timestamp or UUID. -/
def isWellFormedDefinition (d : Definition) : Bool :=
  match d with
  | .objectDef tdef => tdef.Fields.all (fun f => isSupportedType f.Typ)
  | .schemaDef _ => true
  | .enumDef _ => true
  | .unionDef _ => true
  | .interfaceDef _ => true
  | .inputObjectDef _ => true
  | .scalarDef tdef => decide (tdef.Name = "Timestamp") || decide (tdef.Name = "UUID")
  | .otherDef _ => false

/-! ## Helper lemmas -/

theorem stringsReplaceScan_newline (cs : List Char) :
    stringsReplaceScan ['\n'] [' '] 0 cs = cs.map foldNewline := by
  induction cs with
  | nil => rfl
  | cons c cs ih =>
    by_cases h : c = '\n'
    · subst h
      simp [stringsReplaceScan, ih, foldNewline, List.isPrefixOf]
    · have h2 : ¬ ('\n' = c) := fun e => h e.symm
      simp [stringsReplaceScan, ih, foldNewline, List.isPrefixOf, h, h2]

theorem commentValue_data (s : String) :
    (commentValue s).data = s.data.map foldNewline := by
  have h1 : ("\n" : String).data = ['\n'] := rfl
  have h2 : (" " : String).data = [' '] := rfl
  simp [commentValue, stringsReplaceAll, h1, h2, stringsReplaceScan_newline]

theorem gqlSchemaLoop_eq_run (pretty : Definition → String) (ds : List Definition)
    (schema : Schema) (ignore : List String) :
    gqlSchemaLoop pretty schema ignore ds =
      (gqlSchemaRun pretty schema ignore ds).map Prod.fst := by
  induction ds generalizing schema ignore with
  | nil => rfl
  | cons d ds ih =>
    simp only [gqlSchemaLoop, gqlSchemaRun]
    cases h : gqlSchemaStep pretty schema ignore d with
    | error e => rfl
    | ok p => obtain ⟨s1, ig1⟩ := p; simp only [ih]

theorem gqlSchemaStep_skipped (pretty : Definition → String) (schema : Schema)
    (ignore : List String) (d : Definition) (h : isSkipped d = true) :
    gqlSchemaStep pretty schema ignore d = .ok (schema, ignore) := by
  cases d <;> simp [isSkipped] at h <;> rfl

theorem gqlSchemaLoop_filter_skipped (pretty : Definition → String) (ds : List Definition)
    (schema : Schema) (ignore : List String) :
    gqlSchemaLoop pretty schema ignore ds =
      gqlSchemaLoop pretty schema ignore (ds.filter (fun d => !isSkipped d)) := by
  induction ds generalizing schema ignore with
  | nil => rfl
  | cons d ds ih =>
    by_cases h : isSkipped d = true
    · simp only [List.filter, h, Bool.not_true, gqlSchemaLoop, gqlSchemaStep_skipped pretty schema ignore d h]
      exact ih schema ignore
    · have h2 : isSkipped d = false := by simpa using h
      simp only [List.filter, h2, Bool.not_false, gqlSchemaLoop]
      cases hs : gqlSchemaStep pretty schema ignore d with
      | error e => rfl
      | ok p => obtain ⟨s1, ig1⟩ := p; exact ih s1 ig1

theorem forall₂_getElem?_left {α β : Type} {R : α → β → Prop} {l₁ : List α} {l₂ : List β}
    (h : List.Forall₂ R l₁ l₂) (i : Nat) (a : α) (ha : l₁[i]? = some a) :
    ∃ b, l₂[i]? = some b ∧ R a b := by
  induction h generalizing i with
  | nil => simp at ha
  | cons hab _ ih =>
    cases i with
    | zero =>
      simp only [List.getElem?_cons_zero, Option.some.injEq] at ha
      subst ha
      exact ⟨_, by simp, hab⟩
    | succ i =>
      simp only [List.getElem?_cons_succ] at ha
      simpa using ih i ha

theorem forall₂_getElem?_right {α β : Type} {R : α → β → Prop} {l₁ : List α} {l₂ : List β}
    (h : List.Forall₂ R l₁ l₂) (i : Nat) (b : β) (hb : l₂[i]? = some b) :
    ∃ a, l₁[i]? = some a ∧ R a b := by
  induction h generalizing i with
  | nil => simp at hb
  | cons hab _ ih =>
    cases i with
    | zero =>
      simp only [List.getElem?_cons_zero, Option.some.injEq] at hb
      subst hb
      exact ⟨_, by simp, hab⟩
    | succ i =>
      simp only [List.getElem?_cons_succ] at hb
      simpa using ih i hb

theorem gqlStructLoop_ok (fs : List FieldDefinition) (td td' : TypeDef)
    (h : gqlStructLoop td fs = .ok td') :
    ∃ fds, List.Forall₂ (fun f fd => gqlStructField f = .ok fd) fs fds ∧
      td' = { td with Fields := td.Fields ++ fds } := by
  induction fs generalizing td with
  | nil =>
    simp only [gqlStructLoop, Except.ok.injEq] at h
    exact ⟨[], List.Forall₂.nil, by simp [← h]⟩
  | cons f fs ih =>
    simp only [gqlStructLoop] at h
    cases hf : gqlStructField f with
    | error e => rw [hf] at h; cases h
    | ok fd =>
      rw [hf] at h
      obtain ⟨fds, hall, htd⟩ := ih _ h
      exact ⟨fd :: fds, List.Forall₂.cons hf hall, by simp [htd]⟩

theorem gqlStructLoop_of_forall₂ (fs : List FieldDefinition) (fds : List StructFieldDef)
    (td : TypeDef) (h : List.Forall₂ (fun f fd => gqlStructField f = .ok fd) fs fds) :
    gqlStructLoop td fs = .ok { td with Fields := td.Fields ++ fds } := by
  induction h generalizing td with
  | nil => simp [gqlStructLoop]
  | cons hf _ ih => simp [gqlStructLoop, hf, ih]

/-- What a successful `gqlStruct` appends, field by field. -/
theorem gqlStruct_ok (schema s' : Schema) (o : ObjectDefinition)
    (h : gqlStruct schema o = .ok s') :
    ∃ td, s' = { schema with Types := schema.Types ++ [td] } ∧
      td.Name = o.Name ∧ td.Comment = commentValue (stringValue o.Description) ∧
      td.Typ = "Struct" ∧ td.Elements = [] ∧ td.Variants = [] ∧
      List.Forall₂ (fun f fd => gqlStructField f = .ok fd) o.Fields td.Fields := by
  simp only [gqlStruct] at h
  cases hl : gqlStructLoop
      { Name := o.Name, Comment := commentValue (stringValue o.Description), Typ := "Struct" }
      o.Fields with
  | error e => rw [hl] at h; cases h
  | ok td =>
    rw [hl] at h
    simp only [Except.ok.injEq] at h
    obtain ⟨fds, hall, htd⟩ := gqlStructLoop_ok _ _ _ hl
    refine ⟨td, h.symm, ?_⟩
    subst htd
    simpa using hall

theorem gqlStructField_name_comment (f : FieldDefinition) (fd : StructFieldDef)
    (h : gqlStructField f = .ok fd) :
    fd.Name = f.Name ∧ fd.Comment = commentValue (stringValue f.Description) := by
  obtain ⟨nm, ds, t⟩ := f
  rcases t with n | (n | t | (n | t | t)) | (n | (n | t | (n | t | t)) | t) <;>
    simp [gqlStructField, typeName] at h <;> subst h <;> exact ⟨rfl, rfl⟩

theorem gqlStructField_required (f : FieldDefinition) (fd : StructFieldDef)
    (h : gqlStructField f = .ok fd) :
    fd.Required = true ↔ ∃ t, f.Typ = .nonNull t := by
  obtain ⟨nm, ds, t⟩ := f
  rcases t with n | (n | t | (n | t | t)) | (n | (n | t | (n | t | t)) | t) <;>
    simp [gqlStructField, typeName] at h <;> subst h <;> simp

theorem foldl_preserves {α β : Type} (P : β → Prop) (f : β → α → β)
    (hf : ∀ b a, P b → P (f b a)) (l : List α) (b : β) (hb : P b) : P (l.foldl f b) := by
  induction l generalizing b with
  | nil => exact hb
  | cons a l ih => exact ih (f b a) (hf b a hb)

theorem gqlEnum_ok (schema s' : Schema) (d : EnumDefinition) (h : gqlEnum schema d = .ok s') :
    ∃ td, s' = { schema with Types := schema.Types ++ [td] } ∧
      td.Name = d.Name ∧ td.Typ = "Enum" ∧ td.Fields = [] := by
  simp only [gqlEnum, Except.ok.injEq] at h
  refine ⟨_, h.symm, ?_⟩
  apply foldl_preserves (fun td : TypeDef => td.Name = d.Name ∧ td.Typ = "Enum" ∧ td.Fields = [])
  · intro b a hb; exact hb
  · cases d.Description <;> exact ⟨rfl, rfl, rfl⟩

theorem gqlUnion_ok (schema s' : Schema) (d : UnionDefinition) (h : gqlUnion schema d = .ok s') :
    ∃ td, s' = { schema with Types := schema.Types ++ [td] } ∧
      td.Name = d.Name ∧ td.Typ = "Union" ∧ td.Fields = [] := by
  simp only [gqlUnion, Except.ok.injEq] at h
  refine ⟨_, h.symm, ?_⟩
  apply foldl_preserves (fun td : TypeDef => td.Name = d.Name ∧ td.Typ = "Union" ∧ td.Fields = [])
  · intro b a hb; exact hb
  · cases d.Description <;> exact ⟨rfl, rfl, rfl⟩

/-- One loop iteration: the ignore map grows by the operation types that `d`
declares, and the schema is unchanged or gains one translation of `d`. -/
theorem gqlSchemaStep_ok (pretty : Definition → String) (s s' : Schema)
    (ig ig' : List String) (d : Definition)
    (h : gqlSchemaStep pretty s ig d = .ok (s', ig')) :
    ig' = ig ++ declaredRoots [d] ∧
    ((stepName ig d = none ∧ s' = s) ∨
      ∃ td, stepName ig d = some td.Name ∧ s' = { s with Types := s.Types ++ [td] } ∧
        Produces d td) := by
  cases d with
  | objectDef o =>
    simp only [gqlSchemaStep] at h
    by_cases hm : o.Name ∈ ig
    · simp only [hm, if_true, Except.ok.injEq, Prod.mk.injEq] at h
      exact ⟨by simp [declaredRoots, h.2], Or.inl ⟨by simp [stepName, hm], h.1.symm⟩⟩
    · simp only [hm, if_false] at h
      cases hg : gqlStruct s o with
      | error e => rw [hg] at h; cases h
      | ok s2 =>
        rw [hg] at h
        simp only [Except.ok.injEq, Prod.mk.injEq] at h
        obtain ⟨td, hs, hn, _, ht, _, _, hall⟩ := gqlStruct_ok s s2 o hg
        refine ⟨by simp [declaredRoots, h.2], Or.inr ⟨td, by simp [stepName, hm, hn], ?_, hn, ht, hall⟩⟩
        rw [← h.1, hs]
  | schemaDef sd =>
    simp only [gqlSchemaStep, Except.ok.injEq, Prod.mk.injEq] at h
    exact ⟨by simp [declaredRoots, ← h.2], Or.inl ⟨rfl, h.1.symm⟩⟩
  | enumDef e =>
    simp only [gqlSchemaStep] at h
    cases hg : gqlEnum s e with
    | error e => rw [hg] at h; cases h
    | ok s2 =>
      rw [hg] at h
      simp only [Except.ok.injEq, Prod.mk.injEq] at h
      obtain ⟨td, hs, hn, ht, hf⟩ := gqlEnum_ok s s2 e hg
      refine ⟨by simp [declaredRoots, h.2], Or.inr ⟨td, by simp [stepName, hn], ?_, hn, ht, hf⟩⟩
      rw [← h.1, hs]
  | unionDef u =>
    simp only [gqlSchemaStep] at h
    cases hg : gqlUnion s u with
    | error e => rw [hg] at h; cases h
    | ok s2 =>
      rw [hg] at h
      simp only [Except.ok.injEq, Prod.mk.injEq] at h
      obtain ⟨td, hs, hn, ht, hf⟩ := gqlUnion_ok s s2 u hg
      refine ⟨by simp [declaredRoots, h.2], Or.inr ⟨td, by simp [stepName, hn], ?_, hn, ht, hf⟩⟩
      rw [← h.1, hs]
  | interfaceDef t =>
    simp only [gqlSchemaStep, Except.ok.injEq, Prod.mk.injEq] at h
    exact ⟨by simp [declaredRoots, h.2], Or.inl ⟨rfl, h.1.symm⟩⟩
  | inputObjectDef t =>
    simp only [gqlSchemaStep, Except.ok.injEq, Prod.mk.injEq] at h
    exact ⟨by simp [declaredRoots, h.2], Or.inl ⟨rfl, h.1.symm⟩⟩
  | scalarDef t =>
    simp only [gqlSchemaStep] at h
    split at h
    · simp only [Except.ok.injEq, Prod.mk.injEq] at h
      exact ⟨by simp [declaredRoots, h.2], Or.inl ⟨rfl, h.1.symm⟩⟩
    · split at h
      · simp only [Except.ok.injEq, Prod.mk.injEq] at h
        exact ⟨by simp [declaredRoots, h.2], Or.inl ⟨rfl, h.1.symm⟩⟩
      · cases h
  | otherDef k =>
    simp only [gqlSchemaStep] at h
    cases h

theorem gqlSchemaRun_append (pretty : Definition → String) (ds₁ ds₂ : List Definition)
    (s : Schema) (ig : List String) :
    gqlSchemaRun pretty s ig (ds₁ ++ ds₂) =
      match gqlSchemaRun pretty s ig ds₁ with
      | .ok (s', ig') => gqlSchemaRun pretty s' ig' ds₂
      | .error e => .error e := by
  induction ds₁ generalizing s ig with
  | nil => rfl
  | cons d ds ih =>
    simp only [List.cons_append, gqlSchemaRun]
    cases hs : gqlSchemaStep pretty s ig d with
    | error e => rfl
    | ok p => obtain ⟨s1, ig1⟩ := p; exact ih s1 ig1

theorem gqlSchemaRun_singleton (pretty : Definition → String) (d : Definition)
    (s : Schema) (ig : List String) :
    gqlSchemaRun pretty s ig [d] = gqlSchemaStep pretty s ig d := by
  simp only [gqlSchemaRun]
  cases hs : gqlSchemaStep pretty s ig d with
  | error e => rfl
  | ok p => rfl

/-- A successful run: the ignore map has grown by the declared operation
types, and the schema by translations of definitions of the run. -/
theorem gqlSchemaRun_ok (pretty : Definition → String) (ds : List Definition)
    (s s' : Schema) (ig ig' : List String)
    (h : gqlSchemaRun pretty s ig ds = .ok (s', ig')) :
    ig' = ig ++ declaredRoots ds ∧
    ∃ tds, s' = { s with Types := s.Types ++ tds } ∧
      ∀ td ∈ tds, ∃ d ∈ ds, Produces d td := by
  induction ds generalizing s ig with
  | nil =>
    simp only [gqlSchemaRun, Except.ok.injEq, Prod.mk.injEq] at h
    exact ⟨by simp [declaredRoots, h.2], [], by simp [h.1], by simp⟩
  | cons d ds ih =>
    simp only [gqlSchemaRun] at h
    cases hs : gqlSchemaStep pretty s ig d with
    | error e => rw [hs] at h; cases h
    | ok p =>
      obtain ⟨s1, ig1⟩ := p
      rw [hs] at h
      obtain ⟨hig1, hstep⟩ := gqlSchemaStep_ok pretty s s1 ig ig1 d hs
      obtain ⟨hig', tds, hs', hprod⟩ := ih s1 ig1 h
      refine ⟨?_, ?_⟩
      · rw [hig', hig1]; simp [declaredRoots]
      · rcases hstep with ⟨_, rfl⟩ | ⟨td, _, rfl, hp⟩
        · exact ⟨tds, hs', fun td htd => by
            obtain ⟨d', hd', hp'⟩ := hprod td htd
            exact ⟨d', List.mem_cons_of_mem _ hd', hp'⟩⟩
        · refine ⟨td :: tds, by simp [hs'], ?_⟩
          intro td' htd'
          rcases List.mem_cons.1 htd' with rfl | htd'
          · exact ⟨d, List.mem_cons_self _ _, hp⟩
          · obtain ⟨d', hd', hp'⟩ := hprod td' htd'
            exact ⟨d', List.mem_cons_of_mem _ hd', hp'⟩

theorem gqlSchema_ok_iff_run (pretty : Definition → String) (ds : List Definition) (s : Schema) :
    gqlSchema pretty ⟨ds⟩ = .ok s ↔
      ∃ ig, gqlSchemaRun pretty { Name := "generatedFromGraphQL" } [] ds = .ok (s, ig) := by
  simp only [gqlSchema, gqlSchemaLoop_eq_run]
  cases gqlSchemaRun pretty { Name := "generatedFromGraphQL" } [] ds with
  | error e => simp [Except.map]
  | ok p => obtain ⟨s1, ig1⟩ := p; simp [Except.map]

theorem mem_declaredRoots_take (defs : List Definition) (i : Nat) (n : String) :
    n ∈ declaredRoots (defs.take i) ↔ declaredBefore defs i n := by
  simp only [declaredRoots, List.mem_flatMap, declaredBefore]
  constructor
  · rintro ⟨d, hd, hn⟩
    obtain ⟨j, hj⟩ := List.mem_iff_getElem?.1 hd
    have hji : j < i := by
      by_contra hge
      rw [List.getElem?_take_eq_none (Nat.le_of_not_lt hge)] at hj
      cases hj
    rw [List.getElem?_take_of_lt hji] at hj
    cases d with
    | schemaDef sd =>
      simp only [List.mem_map] at hn
      obtain ⟨opt, hopt, rfl⟩ := hn
      exact ⟨j, hji, sd, hj, opt, hopt, rfl⟩
    | _ => simp at hn
  · rintro ⟨j, hji, sd, hj, opt, hopt, rfl⟩
    refine ⟨.schemaDef sd, ?_, ?_⟩
    · apply List.mem_iff_getElem?.2
      exact ⟨j, by rw [List.getElem?_take_of_lt hji]; exact hj⟩
    · simp only [List.mem_map]
      exact ⟨opt, hopt, rfl⟩

theorem expectedNames_concat (ds : List Definition) (d : Definition) :
    expectedNames (ds ++ [d]) = expectedNames ds ++ (stepName (declaredRoots ds) d).toList := by
  simp only [expectedNames, List.length_append, List.length_singleton, List.range_succ,
    List.filterMap_append]
  congr 1
  · apply List.filterMap_congr
    intro i hi
    have hlt : i < ds.length := List.mem_range.1 hi
    simp only [emittedName, List.getElem?_append_left hlt,
      List.take_append_of_le_length (Nat.le_of_lt hlt)]
  · have h1 : (ds ++ [d])[ds.length]? = some d := by simp
    have h2 : List.take ds.length (ds ++ [d]) = ds := List.take_left ds [d]
    simp only [List.filterMap_cons, List.filterMap_nil, emittedName, h1, h2]
    cases d with
    | objectDef o =>
      simp only [stepName]
      by_cases hm : o.Name ∈ declaredRoots ds <;> simp [hm]
    | _ => simp [stepName]

theorem gqlSchemaRun_names (pretty : Definition → String) (s0 : Schema) (ds : List Definition) :
    ∀ (s' : Schema) (ig' : List String), gqlSchemaRun pretty s0 [] ds = .ok (s', ig') →
      s'.Types.map (fun td => td.Name) =
        s0.Types.map (fun td => td.Name) ++ expectedNames ds := by
  induction ds using List.reverseRecOn with
  | nil =>
    intro s' ig' h
    simp only [gqlSchemaRun, Except.ok.injEq, Prod.mk.injEq] at h
    simp [← h.1, expectedNames]
  | append_singleton ds d ih =>
    intro s' ig' h
    rw [gqlSchemaRun_append] at h
    cases hr : gqlSchemaRun pretty s0 [] ds with
    | error e => rw [hr] at h; cases h
    | ok p =>
      obtain ⟨s1, ig1⟩ := p
      rw [hr] at h
      simp only [gqlSchemaRun_singleton] at h
      obtain ⟨hig1, _⟩ := gqlSchemaRun_ok pretty ds s0 s1 [] ig1 hr
      simp only [List.nil_append] at hig1
      obtain ⟨_, hstep⟩ := gqlSchemaStep_ok pretty s1 s' ig1 ig' d h
      rw [expectedNames_concat, ← List.append_assoc, ← ih s1 ig1 hr, ← hig1]
      rcases hstep with ⟨hn, rfl⟩ | ⟨td, hn, rfl, _⟩
      · simp [hn]
      · simp [hn]

theorem convertTypeName_eq_empty (n : String) : convertTypeName n = "" ↔ n = "" := by
  unfold convertTypeName
  constructor
  · intro h
    split_ifs at h with h1 h2 h3 h4
    · exact absurd h (by decide)
    · exact absurd h (by decide)
    · exact absurd h (by decide)
    · exact absurd h (by decide)
    · exact h
  · intro h
    subst h
    decide

theorem convertTypeName_eq_array (n : String) : convertTypeName n = "Array" → n = "Array" := by
  unfold convertTypeName
  intro h
  split_ifs at h with h1 h2 h3 h4
  · exact absurd h (by decide)
  · exact absurd h (by decide)
  · exact absurd h (by decide)
  · exact absurd h (by decide)
  · exact h

theorem gqlStructField_items (f : FieldDefinition) (fd : StructFieldDef)
    (h : gqlStructField f = .ok fd) :
    (fd.Items ≠ "" → fd.Typ = "Array") ∧
    (∀ n, listElementName f.Typ = some n →
      fd.Typ = "Array" ∧ fd.Items = convertTypeName n ∧ (fd.Items ≠ "" ↔ n ≠ "")) ∧
    (fd.Typ = "Array" → fd.Items = "" →
      f.Typ = .named "Array" ∨ f.Typ = .nonNull (.named "Array") ∨
        listElementName f.Typ = some "") := by
  obtain ⟨nm, ds, t⟩ := f
  rcases t with n | (n | t | (n | t | t)) | (n | (n | t | (n | t | t)) | t) <;>
    simp only [gqlStructField, typeName, Except.ok.injEq, reduceCtorEq] at h <;>
    subst h <;>
    simp only [listElementName, ne_eq, not_true_eq_false, false_implies, true_and,
      Option.some.injEq, forall_eq', convertTypeName_eq_empty, reduceCtorEq, false_and,
      forall_const, implies_true, and_true, GqlType.named.injEq, GqlType.nonNull.injEq,
      or_false, false_or, and_self, imp_self]
  · exact convertTypeName_eq_array n
  · exact convertTypeName_eq_array n
  · intro h
    exact absurd h (by decide)

/-- Where a set Items comes from: a supported list shape, whose element name
it maps, or a NonNull list of NonNull lists; a named type, possibly under
NonNull, leaves Items unset. -/
theorem gqlStructField_items_source (f : FieldDefinition) (fd : StructFieldDef)
    (h : gqlStructField f = .ok fd) :
    (fd.Items ≠ "" →
      (∃ n, listElementName f.Typ = some n ∧ fd.Items = convertTypeName n) ∨
        ∃ t, f.Typ = .nonNull (.list (.nonNull (.list t)))) ∧
    (∀ n, f.Typ = .named n ∨ f.Typ = .nonNull (.named n) →
      fd.Typ = convertTypeName n ∧ fd.Items = "") := by
  obtain ⟨nm, ds, t⟩ := f
  rcases t with n | (n | t | (n | t | t)) | (n | (n | t | (n | t | t)) | t) <;>
    simp only [gqlStructField, typeName, Except.ok.injEq, reduceCtorEq] at h <;>
    subst h
  · exact ⟨fun hne => absurd rfl hne, fun m hm => by
      rcases hm with hm | hm
      · cases hm; exact ⟨rfl, rfl⟩
      · cases hm⟩
  · exact ⟨fun _ => Or.inl ⟨n, rfl, rfl⟩, fun m hm => by rcases hm with hm | hm <;> cases hm⟩
  · exact ⟨fun _ => Or.inl ⟨n, rfl, rfl⟩, fun m hm => by rcases hm with hm | hm <;> cases hm⟩
  · exact ⟨fun hne => absurd rfl hne, fun m hm => by
      rcases hm with hm | hm
      · cases hm
      · cases hm; exact ⟨rfl, rfl⟩⟩
  · exact ⟨fun _ => Or.inl ⟨n, rfl, rfl⟩, fun m hm => by rcases hm with hm | hm <;> cases hm⟩
  · exact ⟨fun _ => Or.inl ⟨n, rfl, rfl⟩, fun m hm => by rcases hm with hm | hm <;> cases hm⟩
  · exact ⟨fun _ => Or.inr ⟨t, rfl⟩, fun m hm => by rcases hm with hm | hm <;> cases hm⟩

theorem gqlSchemaLoop_append (pretty : Definition → String) (ds₁ ds₂ : List Definition)
    (s : Schema) (ig : List String) :
    gqlSchemaLoop pretty s ig (ds₁ ++ ds₂) =
      match gqlSchemaRun pretty s ig ds₁ with
      | .ok (s', ig') => gqlSchemaLoop pretty s' ig' ds₂
      | .error e => .error e := by
  induction ds₁ generalizing s ig with
  | nil => rfl
  | cons d ds ih =>
    simp only [List.cons_append, gqlSchemaLoop, gqlSchemaRun]
    cases hs : gqlSchemaStep pretty s ig d with
    | error e => rfl
    | ok p => obtain ⟨s1, ig1⟩ := p; exact ih s1 ig1

/-- A rejected definition makes the loop iteration return an error that does
not depend on the loop state. -/
theorem gqlSchemaStep_rejected (pretty : Definition → String) (d : Definition)
    (h : isRejected d = true) :
    ∃ msg, ∀ (s : Schema) (ig : List String),
      gqlSchemaStep pretty s ig d = .error (.error msg) := by
  cases d with
  | scalarDef sd =>
    simp only [isRejected, Bool.not_eq_true', Bool.or_eq_false_iff, decide_eq_false_iff_not] at h
    exact ⟨"Unsupported custom scalar: " ++ pretty (.scalarDef sd) ++ "\n",
      fun s ig => by simp only [gqlSchemaStep, h.1, h.2, if_false]⟩
  | otherDef k => exact ⟨_, fun s ig => rfl⟩
  | _ => simp [isRejected] at h

theorem commentValue_empty : commentValue "" = "" := by decide

theorem foldl_elements (g : EnumValueDefinition → EnumElementDef)
    (vs : List EnumValueDefinition) (td : TypeDef) :
    vs.foldl (fun td v => { td with Elements := td.Elements ++ [g v] }) td =
      { td with Elements := td.Elements ++ vs.map g } := by
  induction vs generalizing td with
  | nil => simp
  | cons v vs ih => simp [ih]

theorem foldl_variants (vs : List String) (td : TypeDef) :
    vs.foldl (fun td v => { td with Variants := td.Variants ++ [v] }) td =
      { td with Variants := td.Variants ++ vs } := by
  induction vs generalizing td with
  | nil => simp
  | cons v vs ih => simp [ih]

/-- The closed form of `gqlEnum`. -/
theorem gqlEnum_eq (schema : Schema) (d : EnumDefinition) :
    gqlEnum schema d = .ok { schema with Types := schema.Types ++
      [{ Name := d.Name, Comment := commentValue (stringValue d.Description), Typ := "Enum",
         Elements := d.Values.map (fun v =>
           { Symbol := v.Name, Comment := commentValue (stringValue v.Description) }) }] } := by
  obtain ⟨name, descr, vs⟩ := d
  simp only [gqlEnum, foldl_elements]
  have hg : ∀ v : EnumValueDefinition,
      (match v.Description with
        | some c => ({ Symbol := v.Name, Comment := commentValue c } : EnumElementDef)
        | none => { Symbol := v.Name }) =
      { Symbol := v.Name, Comment := commentValue (stringValue v.Description) } := by
    intro v
    cases v.Description <;> simp [stringValue, commentValue_empty]
  cases descr <;> simp [stringValue, commentValue_empty, hg]

/-- The closed form of `gqlUnion`. -/
theorem gqlUnion_eq (schema : Schema) (d : UnionDefinition) :
    gqlUnion schema d = .ok { schema with Types := schema.Types ++
      [{ Name := d.Name, Comment := commentValue (stringValue d.Description), Typ := "Union",
         Variants := d.Types }] } := by
  obtain ⟨name, descr, ts⟩ := d
  simp only [gqlUnion, foldl_variants]
  cases descr <;> simp [stringValue, commentValue_empty]

theorem gqlStructField_supported (f : FieldDefinition) (h : isSupportedType f.Typ = true) :
    ∃ fd, gqlStructField f = .ok fd := by
  obtain ⟨nm, ds, t⟩ := f
  rcases t with n | (n | t | (n | t | t)) | (n | (n | t | (n | t | t)) | t) <;>
    simp only [isSupportedType, Bool.false_eq_true] at h <;> exact ⟨_, rfl⟩

theorem gqlStructLoop_total (fs : List FieldDefinition)
    (h : ∀ f ∈ fs, isSupportedType f.Typ = true) (td : TypeDef) :
    ∃ td', gqlStructLoop td fs = .ok td' := by
  induction fs generalizing td with
  | nil => exact ⟨td, rfl⟩
  | cons f fs ih =>
    obtain ⟨fd, hfd⟩ := gqlStructField_supported f (h f (List.mem_cons_self _ _))
    simp only [gqlStructLoop, hfd]
    exact ih (fun g hg => h g (List.mem_cons_of_mem _ hg)) _

theorem gqlStruct_total (schema : Schema) (o : ObjectDefinition)
    (h : ∀ f ∈ o.Fields, isSupportedType f.Typ = true) :
    ∃ s', gqlStruct schema o = .ok s' := by
  obtain ⟨td, htd⟩ := gqlStructLoop_total o.Fields h
    { Name := o.Name, Comment := commentValue (stringValue o.Description), Typ := "Struct" }
  exact ⟨{ schema with Types := schema.Types ++ [td] }, by simp only [gqlStruct, htd]⟩

theorem gqlSchemaStep_total (pretty : Definition → String) (s : Schema) (ig : List String)
    (d : Definition) (h : isWellFormedDefinition d = true) :
    ∃ s' ig', gqlSchemaStep pretty s ig d = .ok (s', ig') := by
  cases d with
  | objectDef o =>
    simp only [isWellFormedDefinition, List.all_eq_true] at h
    obtain ⟨s', hs'⟩ := gqlStruct_total s o h
    by_cases hm : o.Name ∈ ig
    · exact ⟨s, ig, by simp only [gqlSchemaStep, hm, if_true]⟩
    · exact ⟨s', ig, by simp only [gqlSchemaStep, hm, if_false, hs']⟩
  | schemaDef sd => exact ⟨_, _, rfl⟩
  | enumDef e => exact ⟨_, ig, by simp only [gqlSchemaStep, gqlEnum_eq]; rfl⟩
  | unionDef u => exact ⟨_, ig, by simp only [gqlSchemaStep, gqlUnion_eq]; rfl⟩
  | interfaceDef t => exact ⟨_, _, rfl⟩
  | inputObjectDef t => exact ⟨_, _, rfl⟩
  | scalarDef sd =>
    simp only [isWellFormedDefinition, Bool.or_eq_true, decide_eq_true_eq] at h
    rcases h with h | h
    · exact ⟨s, ig, by simp only [gqlSchemaStep, h, if_true]⟩
    · refine ⟨s, ig, ?_⟩
      simp only [gqlSchemaStep, h]
      split_ifs <;> rfl
  | otherDef k => simp [isWellFormedDefinition] at h

theorem gqlSchemaLoop_total (pretty : Definition → String) (ds : List Definition)
    (h : ∀ d ∈ ds, isWellFormedDefinition d = true) (s : Schema) (ig : List String) :
    ∃ s', gqlSchemaLoop pretty s ig ds = .ok s' := by
  induction ds generalizing s ig with
  | nil => exact ⟨s, rfl⟩
  | cons d ds ih =>
    obtain ⟨s1, ig1, hst⟩ := gqlSchemaStep_total pretty s ig d (h d (List.mem_cons_self _ _))
    simp only [gqlSchemaLoop, hst]
    exact ih (fun e he => h e (List.mem_cons_of_mem _ he)) s1 ig1

/-- What `gqlStruct` appends does not depend on the schema it is appended to. -/
theorem gqlStruct_frame (s s' : Schema) (o : ObjectDefinition) (h : gqlStruct s o = .ok s') :
    ∃ td, ∀ s2 : Schema, gqlStruct s2 o = .ok { s2 with Types := s2.Types ++ [td] } := by
  simp only [gqlStruct] at h
  cases hl : gqlStructLoop
      { Name := o.Name, Comment := commentValue (stringValue o.Description), Typ := "Struct" }
      o.Fields with
  | error e => rw [hl] at h; cases h
  | ok td => exact ⟨td, fun s2 => by simp only [gqlStruct, hl]⟩

theorem schema_append_nil (s : Schema) : ({ s with Types := s.Types ++ [] } : Schema) = s := by
  cases s; simp

/-- What a loop iteration appends does not depend on the schema. -/
theorem gqlSchemaStep_frame (pretty : Definition → String) (s s' : Schema)
    (ig ig' : List String) (d : Definition)
    (h : gqlSchemaStep pretty s ig d = .ok (s', ig')) :
    ∃ tds, ∀ s2 : Schema,
      gqlSchemaStep pretty s2 ig d = .ok ({ s2 with Types := s2.Types ++ tds }, ig') := by
  cases d with
  | objectDef o =>
    simp only [gqlSchemaStep] at h
    by_cases hm : o.Name ∈ ig
    · simp only [hm, if_true, Except.ok.injEq, Prod.mk.injEq] at h
      obtain ⟨rfl, rfl⟩ := h
      exact ⟨[], fun s2 => by simp only [gqlSchemaStep, hm, if_true, schema_append_nil]⟩
    · simp only [hm, if_false] at h
      cases hg : gqlStruct s o with
      | error e => rw [hg] at h; cases h
      | ok s3 =>
        rw [hg] at h
        simp only [Except.ok.injEq, Prod.mk.injEq] at h
        obtain ⟨rfl, rfl⟩ := h
        obtain ⟨td, htd⟩ := gqlStruct_frame s s3 o hg
        exact ⟨[td], fun s2 => by simp only [gqlSchemaStep, hm, if_false, htd]⟩
  | schemaDef sd =>
    simp only [gqlSchemaStep, Except.ok.injEq, Prod.mk.injEq] at h
    obtain ⟨rfl, rfl⟩ := h
    exact ⟨[], fun s2 => by simp only [gqlSchemaStep, schema_append_nil]⟩
  | enumDef e =>
    simp only [gqlSchemaStep, gqlEnum_eq, Except.ok.injEq, Prod.mk.injEq] at h
    obtain ⟨rfl, rfl⟩ := h
    exact ⟨[⟨e.Name, commentValue (stringValue e.Description), "Enum", [],
        e.Values.map (fun v => ⟨v.Name, commentValue (stringValue v.Description)⟩), []⟩],
      fun s2 => by simp only [gqlSchemaStep, gqlEnum_eq]⟩
  | unionDef u =>
    simp only [gqlSchemaStep, gqlUnion_eq, Except.ok.injEq, Prod.mk.injEq] at h
    obtain ⟨rfl, rfl⟩ := h
    exact ⟨[⟨u.Name, commentValue (stringValue u.Description), "Union", [], [], u.Types⟩],
      fun s2 => by simp only [gqlSchemaStep, gqlUnion_eq]⟩
  | interfaceDef t =>
    simp only [gqlSchemaStep, Except.ok.injEq, Prod.mk.injEq] at h
    obtain ⟨rfl, rfl⟩ := h
    exact ⟨[], fun s2 => by simp only [gqlSchemaStep, schema_append_nil]⟩
  | inputObjectDef t =>
    simp only [gqlSchemaStep, Except.ok.injEq, Prod.mk.injEq] at h
    obtain ⟨rfl, rfl⟩ := h
    exact ⟨[], fun s2 => by simp only [gqlSchemaStep, schema_append_nil]⟩
  | scalarDef sd =>
    simp only [gqlSchemaStep] at h
    split at h
    · rename_i h1
      simp only [Except.ok.injEq, Prod.mk.injEq] at h
      obtain ⟨rfl, rfl⟩ := h
      exact ⟨[], fun s2 => by simp only [gqlSchemaStep, h1, if_true, schema_append_nil]⟩
    · split at h
      · rename_i h1 h2
        simp only [Except.ok.injEq, Prod.mk.injEq] at h
        obtain ⟨rfl, rfl⟩ := h
        exact ⟨[], fun s2 => by
          simp only [gqlSchemaStep, h1, h2, if_true, if_false, schema_append_nil]
          split_ifs <;> rfl⟩
      · cases h
  | otherDef k =>
    simp only [gqlSchemaStep] at h
    cases h

/-- What a run appends does not depend on the schema it starts from. -/
theorem gqlSchemaRun_frame (pretty : Definition → String) (ds : List Definition)
    (s s' : Schema) (ig ig' : List String)
    (h : gqlSchemaRun pretty s ig ds = .ok (s', ig')) :
    ∃ tds, ∀ s2 : Schema,
      gqlSchemaRun pretty s2 ig ds = .ok ({ s2 with Types := s2.Types ++ tds }, ig') := by
  induction ds generalizing s ig with
  | nil =>
    simp only [gqlSchemaRun, Except.ok.injEq, Prod.mk.injEq] at h
    obtain ⟨rfl, rfl⟩ := h
    exact ⟨[], fun s2 => by simp only [gqlSchemaRun, schema_append_nil]⟩
  | cons d ds ih =>
    simp only [gqlSchemaRun] at h
    cases hs : gqlSchemaStep pretty s ig d with
    | error e => rw [hs] at h; cases h
    | ok p =>
      obtain ⟨s1, ig1⟩ := p
      rw [hs] at h
      obtain ⟨tds1, h1⟩ := gqlSchemaStep_frame pretty s s1 ig ig1 d hs
      obtain ⟨tds2, h2⟩ := ih s1 ig1 h
      exact ⟨tds1 ++ tds2, fun s2 => by simp only [gqlSchemaRun, h1, h2, List.append_assoc]⟩

theorem mem_declaredRoots_iff (ds : List Definition) (n : String) :
    n ∈ declaredRoots ds ↔
      ∃ sd, Definition.schemaDef sd ∈ ds ∧ ∃ opt ∈ sd.OperationTypes, opt.Typ = n := by
  simp only [declaredRoots, List.mem_flatMap]
  constructor
  · rintro ⟨d, hd, hn⟩
    cases d with
    | schemaDef sd =>
      simp only [List.mem_map] at hn
      obtain ⟨opt, hopt, rfl⟩ := hn
      exact ⟨sd, hd, opt, hopt, rfl⟩
    | _ => simp at hn
  · rintro ⟨sd, hd, opt, hopt, rfl⟩
    exact ⟨.schemaDef sd, hd, by simp only [List.mem_map]; exact ⟨opt, hopt, rfl⟩⟩

theorem declaredRoots_eq_nil (ds : List Definition)
    (h : ∀ d ∈ ds, isSchemaDefinition d = false) : declaredRoots ds = [] := by
  induction ds with
  | nil => rfl
  | cons d ds ih =>
    have hd := h d (List.mem_cons_self _ _)
    have ih' := ih (fun e he => h e (List.mem_cons_of_mem _ he))
    simp only [declaredRoots, List.flatMap_cons] at ih' ⊢
    rw [ih']
    cases d <;> simp [isSchemaDefinition] at hd ⊢

/-! ## Theorems -/

/-- C1: for every document whose translation succeeds, the names of the output
type definitions are, in document order, the names of the enum definitions, the
union definitions and the object definitions whose name no earlier schema
definition declares as an operation type. -/
theorem gqlSchema_order_preservation (pretty : Definition → String) (doc : Document)
    (s : Schema) (h : gqlSchema pretty doc = .ok s) :
    s.Types.map (fun td => td.Name) = expectedNames doc.Definitions := by
  obtain ⟨ds⟩ := doc
  obtain ⟨ig, hr⟩ := (gqlSchema_ok_iff_run pretty ds s).1 h
  simpa using gqlSchemaRun_names pretty _ ds s ig hr

/-- Witness for C1: a document with an interface, an enum, a schema
definition, an ignored object, a union, an allowed scalar and an object. -/
theorem gqlSchema_order_preservation_witness :
    gqlSchema (fun _ => "")
      ⟨[.interfaceDef ⟨"I", none, []⟩, .enumDef ⟨"E", none, [⟨"A", none⟩]⟩,
        .schemaDef ⟨[⟨"query", "Q"⟩]⟩, .objectDef ⟨"Q", none, []⟩,
        .unionDef ⟨"U", none, ["X", "Y"]⟩, .scalarDef ⟨"UUID", none⟩,
        .objectDef ⟨"X", none, [⟨"f", none, .named "Int"⟩]⟩]⟩
      = .ok ⟨"generatedFromGraphQL",
          [⟨"E", "", "Enum", [], [⟨"A", ""⟩], []⟩, ⟨"U", "", "Union", [], [], ["X", "Y"]⟩,
            ⟨"X", "", "Struct", [⟨"f", "", false, "Int32", ""⟩], [], []⟩]⟩ ∧
    (⟨"generatedFromGraphQL",
          [⟨"E", "", "Enum", [], [⟨"A", ""⟩], []⟩, ⟨"U", "", "Union", [], [], ["X", "Y"]⟩,
            ⟨"X", "", "Struct", [⟨"f", "", false, "Int32", ""⟩], [], []⟩]⟩ :
        Schema).Types.map (fun td => td.Name) =
      expectedNames
        [.interfaceDef ⟨"I", none, []⟩, .enumDef ⟨"E", none, [⟨"A", none⟩]⟩,
          .schemaDef ⟨[⟨"query", "Q"⟩]⟩, .objectDef ⟨"Q", none, []⟩,
          .unionDef ⟨"U", none, ["X", "Y"]⟩, .scalarDef ⟨"UUID", none⟩,
          .objectDef ⟨"X", none, [⟨"f", none, .named "Int"⟩]⟩] :=
  ⟨by decide, gqlSchema_order_preservation (fun _ => "")
      ⟨[.interfaceDef ⟨"I", none, []⟩, .enumDef ⟨"E", none, [⟨"A", none⟩]⟩,
        .schemaDef ⟨[⟨"query", "Q"⟩]⟩, .objectDef ⟨"Q", none, []⟩,
        .unionDef ⟨"U", none, ["X", "Y"]⟩, .scalarDef ⟨"UUID", none⟩,
        .objectDef ⟨"X", none, [⟨"f", none, .named "Int"⟩]⟩]⟩ _ (by decide)⟩

/-- C2: in a successfully translated document, the object definition at
position `i` makes the loop append a type definition (which stays in the final
output) if and only if no schema definition at a position before `i` declares
an operation type with that object's name; otherwise the schema is left as it
was.  An object QueryRoot after `schema { query: QueryRoot }` is excluded, and
one before it is emitted. -/
theorem gqlSchema_root_exclusion (pretty : Definition → String) :
    (∀ (doc : Document) (s : Schema) (i : Nat) (o : ObjectDefinition),
      gqlSchema pretty doc = .ok s → doc.Definitions[i]? = some (.objectDef o) →
      ∃ s₁ s₂, gqlSchema pretty ⟨doc.Definitions.take i⟩ = .ok s₁ ∧
        gqlSchema pretty ⟨doc.Definitions.take (i + 1)⟩ = .ok s₂ ∧
        s₂.Types <+: s.Types ∧
        ((∃ td, s₂.Types = s₁.Types ++ [td] ∧ td.Name = o.Name ∧ td.Typ = "Struct") ↔
          ¬ declaredBefore doc.Definitions i o.Name) ∧
        (declaredBefore doc.Definitions i o.Name → s₂ = s₁)) ∧
    gqlSchema pretty
        ⟨[.schemaDef ⟨[⟨"query", "QueryRoot"⟩]⟩, .objectDef ⟨"QueryRoot", none, []⟩]⟩ =
      .ok ⟨"generatedFromGraphQL", []⟩ ∧
    gqlSchema pretty
        ⟨[.objectDef ⟨"QueryRoot", none, []⟩, .schemaDef ⟨[⟨"query", "QueryRoot"⟩]⟩]⟩ =
      .ok ⟨"generatedFromGraphQL", [⟨"QueryRoot", "", "Struct", [], [], []⟩]⟩ := by
  refine ⟨?_, ?_, ?_⟩
  · rintro ⟨ds⟩ s i o h hi
    simp only at hi ⊢
    obtain ⟨ig, hr⟩ := (gqlSchema_ok_iff_run pretty ds s).1 h
    have hlt : i < ds.length := by
      by_contra hge
      rw [List.getElem?_eq_none (Nat.le_of_not_lt hge)] at hi
      cases hi
    have hget : ds[i] = .objectDef o := by
      rw [List.getElem?_eq_getElem hlt] at hi
      exact Option.some.inj hi
    have happ := gqlSchemaRun_append pretty (ds.take i) (ds.drop i)
      { Name := "generatedFromGraphQL" } []
    rw [List.take_append_drop] at happ
    rw [happ] at hr
    cases hr1 : gqlSchemaRun pretty { Name := "generatedFromGraphQL" } [] (ds.take i) with
    | error e => rw [hr1] at hr; cases hr
    | ok p =>
      obtain ⟨s₁, ig₁⟩ := p
      rw [hr1] at hr
      simp only [List.drop_eq_getElem_cons hlt, hget, gqlSchemaRun] at hr
      cases hst : gqlSchemaStep pretty s₁ ig₁ (.objectDef o) with
      | error e => rw [hst] at hr; cases hr
      | ok q =>
        obtain ⟨s₂, ig₂⟩ := q
        rw [hst] at hr
        simp only at hr
        obtain ⟨hig₁, _⟩ := gqlSchemaRun_ok pretty _ _ _ _ _ hr1
        simp only [List.nil_append] at hig₁
        obtain ⟨_, tds, hs, _⟩ := gqlSchemaRun_ok pretty _ _ _ _ _ hr
        have htake : ds.take (i + 1) = ds.take i ++ [.objectDef o] := by
          rw [List.take_succ, hi]; rfl
        have hr2 : gqlSchemaRun pretty { Name := "generatedFromGraphQL" } [] (ds.take (i + 1))
            = .ok (s₂, ig₂) := by
          rw [htake, gqlSchemaRun_append, hr1]
          simp only [gqlSchemaRun_singleton, hst]
        refine ⟨s₁, s₂, (gqlSchema_ok_iff_run pretty _ s₁).2 ⟨ig₁, hr1⟩,
          (gqlSchema_ok_iff_run pretty _ s₂).2 ⟨ig₂, hr2⟩, ?_, ?_, ?_⟩
        · rw [hs]; exact List.prefix_append _ _
        · rw [← mem_declaredRoots_take, ← hig₁]
          simp only [gqlSchemaStep] at hst
          by_cases hm : o.Name ∈ ig₁
          · simp only [hm, if_true, Except.ok.injEq, Prod.mk.injEq] at hst
            rw [← hst.1]
            simp only [hm, not_true_eq_false, iff_false, not_exists]
            intro td htd
            have := congrArg List.length htd.1
            simp at this
          · simp only [hm, if_false] at hst
            cases hg : gqlStruct s₁ o with
            | error e => rw [hg] at hst; cases hst
            | ok s3 =>
              rw [hg] at hst
              simp only [Except.ok.injEq, Prod.mk.injEq] at hst
              obtain ⟨td, hs3, hn, _, ht, _⟩ := gqlStruct_ok s₁ s3 o hg
              simp only [hm, not_false_eq_true, iff_true]
              exact ⟨td, by rw [← hst.1, hs3], hn, ht⟩
        · rw [← mem_declaredRoots_take, ← hig₁]
          intro hm
          simp only [gqlSchemaStep, hm, if_true, Except.ok.injEq, Prod.mk.injEq] at hst
          exact hst.1.symm
  · rfl
  · rfl

/-- Witness for C2: the object QueryRoot at position 1, after the schema
definition that declares it. -/
theorem gqlSchema_root_exclusion_witness :
    gqlSchema (fun _ => "")
        ⟨[.schemaDef ⟨[⟨"query", "QueryRoot"⟩]⟩, .objectDef ⟨"QueryRoot", none, []⟩,
          .objectDef ⟨"A", none, []⟩]⟩ =
      .ok ⟨"generatedFromGraphQL", [⟨"A", "", "Struct", [], [], []⟩]⟩ ∧
    ∃ s₁ s₂,
      gqlSchema (fun _ => "") ⟨List.take 1
        [.schemaDef ⟨[⟨"query", "QueryRoot"⟩]⟩, .objectDef ⟨"QueryRoot", none, []⟩,
          .objectDef ⟨"A", none, []⟩]⟩ = .ok s₁ ∧
      gqlSchema (fun _ => "") ⟨List.take (1 + 1)
        [.schemaDef ⟨[⟨"query", "QueryRoot"⟩]⟩, .objectDef ⟨"QueryRoot", none, []⟩,
          .objectDef ⟨"A", none, []⟩]⟩ = .ok s₂ ∧
      s₂.Types <+: (⟨"generatedFromGraphQL", [⟨"A", "", "Struct", [], [], []⟩]⟩ : Schema).Types ∧
      ((∃ td, s₂.Types = s₁.Types ++ [td] ∧ td.Name = "QueryRoot" ∧ td.Typ = "Struct") ↔
        ¬ declaredBefore
          [.schemaDef ⟨[⟨"query", "QueryRoot"⟩]⟩, .objectDef ⟨"QueryRoot", none, []⟩,
            .objectDef ⟨"A", none, []⟩] 1 "QueryRoot") ∧
      (declaredBefore
          [.schemaDef ⟨[⟨"query", "QueryRoot"⟩]⟩, .objectDef ⟨"QueryRoot", none, []⟩,
            .objectDef ⟨"A", none, []⟩] 1 "QueryRoot" → s₂ = s₁) :=
  ⟨by decide, (gqlSchema_root_exclusion (fun _ => "")).1
      ⟨[.schemaDef ⟨[⟨"query", "QueryRoot"⟩]⟩, .objectDef ⟨"QueryRoot", none, []⟩,
        .objectDef ⟨"A", none, []⟩]⟩ _ 1 ⟨"QueryRoot", none, []⟩ (by decide) (by decide)⟩

/-- C3: for every object definition whose translation succeeds and every field
of it, the output field at the same position has `Required = true` exactly
when the source field's type is a NonNull wrapper at the outermost level. -/
theorem gqlStruct_required_iff (schema s' : Schema) (o : ObjectDefinition)
    (h : gqlStruct schema o = .ok s') :
    ∃ td, s'.Types = schema.Types ++ [td] ∧ td.Fields.length = o.Fields.length ∧
      ∀ (i : Nat) (f : FieldDefinition) (fd : StructFieldDef),
        o.Fields[i]? = some f → td.Fields[i]? = some fd →
        (fd.Required = true ↔ ∃ t, f.Typ = .nonNull t) := by
  obtain ⟨td, hs, _, _, _, _, _, hall⟩ := gqlStruct_ok schema s' o h
  refine ⟨td, by rw [hs], hall.length_eq.symm, ?_⟩
  intro i f fd hf hfd
  obtain ⟨fd', hfd', hok⟩ := forall₂_getElem?_left hall i f hf
  rw [hfd] at hfd'
  cases hfd'
  exact gqlStructField_required f fd hok

/-- Witness for C3: an object with a non-null field and a list of non-null
elements. -/
theorem gqlStruct_required_iff_witness :
    gqlStruct ⟨"s", []⟩ ⟨"A", none,
        [⟨"x", none, .nonNull (.named "Int")⟩, ⟨"y", none, .list (.nonNull (.named "Int"))⟩]⟩
      = .ok ⟨"s", [⟨"A", "", "Struct",
          [⟨"x", "", true, "Int32", ""⟩, ⟨"y", "", false, "Array", "Int32"⟩], [], []⟩]⟩ ∧
    ∃ td, (⟨"s", [⟨"A", "", "Struct",
          [⟨"x", "", true, "Int32", ""⟩, ⟨"y", "", false, "Array", "Int32"⟩], [], []⟩]⟩ :
          Schema).Types = ([] : List TypeDef) ++ [td] ∧
      td.Fields.length = 2 ∧
      ∀ (i : Nat) (f : FieldDefinition) (fd : StructFieldDef),
        [(⟨"x", none, .nonNull (.named "Int")⟩ : FieldDefinition),
          ⟨"y", none, .list (.nonNull (.named "Int"))⟩][i]? = some f →
        td.Fields[i]? = some fd →
        (fd.Required = true ↔ ∃ t, f.Typ = .nonNull t) :=
  ⟨by decide, gqlStruct_required_iff ⟨"s", []⟩ _ ⟨"A", none,
        [⟨"x", none, .nonNull (.named "Int")⟩, ⟨"y", none, .list (.nonNull (.named "Int"))⟩]⟩
      (by decide)⟩

/-- C4: a field of type Named(n) yields Type = convertTypeName(n), Required =
false, Items empty; a field of type NonNull(Named(n)) yields the same with
Required = true.  This holds for the field translation itself and for the
field at any position of a successfully translated object; Int, Float, Boolean
and ID become Int32, Float64, Bool and String, and String stays String. -/
theorem gqlStruct_named_mapping :
    (∀ (name : String) (descr : Option String) (n : String),
      gqlStructField ⟨name, descr, .named n⟩ =
        .ok ⟨name, commentValue (stringValue descr), false, convertTypeName n, ""⟩ ∧
      gqlStructField ⟨name, descr, .nonNull (.named n)⟩ =
        .ok ⟨name, commentValue (stringValue descr), true, convertTypeName n, ""⟩) ∧
    (∀ (schema s' : Schema) (o : ObjectDefinition), gqlStruct schema o = .ok s' →
      ∃ td, s'.Types = schema.Types ++ [td] ∧
        ∀ (i : Nat) (f : FieldDefinition) (n : String), o.Fields[i]? = some f →
          (f.Typ = .named n → td.Fields[i]? = some
            ⟨f.Name, commentValue (stringValue f.Description), false, convertTypeName n, ""⟩) ∧
          (f.Typ = .nonNull (.named n) → td.Fields[i]? = some
            ⟨f.Name, commentValue (stringValue f.Description), true, convertTypeName n, ""⟩)) ∧
    convertTypeName "Int" = "Int32" ∧ convertTypeName "Float" = "Float64" ∧
    convertTypeName "Boolean" = "Bool" ∧ convertTypeName "ID" = "String" ∧
    convertTypeName "String" = "String" := by
  refine ⟨fun name descr n => ⟨rfl, rfl⟩, ?_, by decide, by decide, by decide, by decide,
    by decide⟩
  intro schema s' o h
  obtain ⟨td, hs, _, _, _, _, _, hall⟩ := gqlStruct_ok schema s' o h
  refine ⟨td, by rw [hs], ?_⟩
  intro i f n hf
  obtain ⟨fd, hfd, hok⟩ := forall₂_getElem?_left hall i f hf
  obtain ⟨nm, ds, t⟩ := f
  constructor
  · intro ht
    simp only at ht
    subst ht
    simp only [gqlStructField, Except.ok.injEq] at hok
    rw [hfd, ← hok]
  · intro ht
    simp only at ht
    subst ht
    simp only [gqlStructField, Except.ok.injEq] at hok
    rw [hfd, ← hok]

/-- Witness for C4: an object with the fields `a: ID` and `b: Boolean!`. -/
theorem gqlStruct_named_mapping_witness :
    gqlStruct ⟨"s", []⟩ ⟨"A", none,
        [⟨"a", none, .named "ID"⟩, ⟨"b", none, .nonNull (.named "Boolean")⟩]⟩
      = .ok ⟨"s", [⟨"A", "", "Struct",
          [⟨"a", "", false, "String", ""⟩, ⟨"b", "", true, "Bool", ""⟩], [], []⟩]⟩ ∧
    ∃ td, (⟨"s", [⟨"A", "", "Struct",
          [⟨"a", "", false, "String", ""⟩, ⟨"b", "", true, "Bool", ""⟩], [], []⟩]⟩ :
          Schema).Types = ([] : List TypeDef) ++ [td] ∧
      ∀ (i : Nat) (f : FieldDefinition) (n : String),
        [(⟨"a", none, .named "ID"⟩ : FieldDefinition),
          ⟨"b", none, .nonNull (.named "Boolean")⟩][i]? = some f →
        (f.Typ = .named n → td.Fields[i]? = some
          ⟨f.Name, commentValue (stringValue f.Description), false, convertTypeName n, ""⟩) ∧
        (f.Typ = .nonNull (.named n) → td.Fields[i]? = some
          ⟨f.Name, commentValue (stringValue f.Description), true, convertTypeName n, ""⟩) :=
  ⟨by decide, gqlStruct_named_mapping.2.1 ⟨"s", []⟩ _ ⟨"A", none,
        [⟨"a", none, .named "ID"⟩, ⟨"b", none, .nonNull (.named "Boolean")⟩]⟩
      (by decide)⟩

/-- C5: each of List(Named n), List(NonNull(Named n)), NonNull(List(Named n))
and NonNull(List(NonNull(Named n))) yields Type = "Array" and Items =
convertTypeName(n), with Required = true exactly for the two shapes under an
outer NonNull.  This holds for the field translation itself and for the field
at any position of a successfully translated object. -/
theorem gqlStruct_list_mapping :
    (∀ (name : String) (descr : Option String) (n : String),
      gqlStructField ⟨name, descr, .list (.named n)⟩ =
        .ok ⟨name, commentValue (stringValue descr), false, "Array", convertTypeName n⟩ ∧
      gqlStructField ⟨name, descr, .list (.nonNull (.named n))⟩ =
        .ok ⟨name, commentValue (stringValue descr), false, "Array", convertTypeName n⟩ ∧
      gqlStructField ⟨name, descr, .nonNull (.list (.named n))⟩ =
        .ok ⟨name, commentValue (stringValue descr), true, "Array", convertTypeName n⟩ ∧
      gqlStructField ⟨name, descr, .nonNull (.list (.nonNull (.named n)))⟩ =
        .ok ⟨name, commentValue (stringValue descr), true, "Array", convertTypeName n⟩) ∧
    (∀ (schema s' : Schema) (o : ObjectDefinition), gqlStruct schema o = .ok s' →
      ∃ td, s'.Types = schema.Types ++ [td] ∧
        ∀ (i : Nat) (f : FieldDefinition) (n : String), o.Fields[i]? = some f →
          (f.Typ = .list (.named n) ∨ f.Typ = .list (.nonNull (.named n)) →
            td.Fields[i]? = some ⟨f.Name, commentValue (stringValue f.Description), false,
              "Array", convertTypeName n⟩) ∧
          (f.Typ = .nonNull (.list (.named n)) ∨
              f.Typ = .nonNull (.list (.nonNull (.named n))) →
            td.Fields[i]? = some ⟨f.Name, commentValue (stringValue f.Description), true,
              "Array", convertTypeName n⟩)) ∧
    gqlStructField ⟨"f", none, .list (.named "Int")⟩ = .ok ⟨"f", "", false, "Array", "Int32"⟩ ∧
    gqlStructField ⟨"f", none, .nonNull (.list (.nonNull (.named "ID")))⟩ =
      .ok ⟨"f", "", true, "Array", "String"⟩ := by
  refine ⟨fun name descr n => ⟨rfl, rfl, rfl, rfl⟩, ?_, by decide, by decide⟩
  intro schema s' o h
  obtain ⟨td, hs, _, _, _, _, _, hall⟩ := gqlStruct_ok schema s' o h
  refine ⟨td, by rw [hs], ?_⟩
  intro i f n hf
  obtain ⟨fd, hfd, hok⟩ := forall₂_getElem?_left hall i f hf
  obtain ⟨nm, ds, t⟩ := f
  constructor
  · rintro (ht | ht) <;>
    · simp only at ht
      subst ht
      simp only [gqlStructField, Except.ok.injEq] at hok
      rw [hfd, ← hok]
  · rintro (ht | ht) <;>
    · simp only at ht
      subst ht
      simp only [gqlStructField, typeName, Except.ok.injEq] at hok
      rw [hfd, ← hok]

/-- Witness for C5: an object with the fields `a: [Int]` and `b: [ID!]!`. -/
theorem gqlStruct_list_mapping_witness :
    gqlStruct ⟨"s", []⟩ ⟨"A", none,
        [⟨"a", none, .list (.named "Int")⟩,
          ⟨"b", none, .nonNull (.list (.nonNull (.named "ID")))⟩]⟩
      = .ok ⟨"s", [⟨"A", "", "Struct",
          [⟨"a", "", false, "Array", "Int32"⟩, ⟨"b", "", true, "Array", "String"⟩], [], []⟩]⟩ ∧
    ∃ td, (⟨"s", [⟨"A", "", "Struct",
          [⟨"a", "", false, "Array", "Int32"⟩, ⟨"b", "", true, "Array", "String"⟩], [], []⟩]⟩ :
          Schema).Types = ([] : List TypeDef) ++ [td] ∧
      ∀ (i : Nat) (f : FieldDefinition) (n : String),
        [(⟨"a", none, .list (.named "Int")⟩ : FieldDefinition),
          ⟨"b", none, .nonNull (.list (.nonNull (.named "ID")))⟩][i]? = some f →
        (f.Typ = .list (.named n) ∨ f.Typ = .list (.nonNull (.named n)) →
          td.Fields[i]? = some ⟨f.Name, commentValue (stringValue f.Description), false,
            "Array", convertTypeName n⟩) ∧
        (f.Typ = .nonNull (.list (.named n)) ∨
            f.Typ = .nonNull (.list (.nonNull (.named n))) →
          td.Fields[i]? = some ⟨f.Name, commentValue (stringValue f.Description), true,
            "Array", convertTypeName n⟩) :=
  ⟨by decide, gqlStruct_list_mapping.2.1 ⟨"s", []⟩ _ ⟨"A", none,
        [⟨"a", none, .list (.named "Int")⟩,
          ⟨"b", none, .nonNull (.list (.nonNull (.named "ID")))⟩]⟩
      (by decide)⟩

/-- The part of the rule on unsupported list elements that the code keeps: a
list whose element is neither Named nor NonNull(Named) panics when the list is
not under NonNull, and under NonNull it panics unless the element is a
NonNull(List). -/
theorem gqlStructField_unsupported_list (name : String) (descr : Option String)
    (e : GqlType) (h₁ : ∀ n, e ≠ .named n) (h₂ : ∀ n, e ≠ .nonNull (.named n)) :
    (∃ msg, gqlStructField ⟨name, descr, .list e⟩ = .error (.panic msg)) ∧
    ((∀ t, e ≠ .nonNull (.list t)) →
      ∃ msg, gqlStructField ⟨name, descr, .nonNull (.list e)⟩ = .error (.panic msg)) := by
  rcases e with n | t | (n | t | t)
  · exact absurd rfl (h₁ n)
  · exact ⟨⟨_, rfl⟩, fun _ => ⟨_, rfl⟩⟩
  · exact absurd rfl (h₂ n)
  · exact ⟨⟨_, rfl⟩, fun h => absurd rfl (h t)⟩
  · exact ⟨⟨_, rfl⟩, fun _ => ⟨_, rfl⟩⟩

/-- C6 (evaluation at the failing input): a field of type `[[Int]!]!`, that is
NonNull(List(NonNull(List(Named Int)))), does not fail: it is translated to an
array whose Items is "Array", and a document holding it yields a schema; the
same list without the outer NonNull panics. -/
theorem gqlStruct_nested_list_under_nonNull (pretty : Definition → String) :
    gqlStructField ⟨"x", none, .nonNull (.list (.nonNull (.list (.named "Int"))))⟩ =
      .ok ⟨"x", "", true, "Array", "Array"⟩ ∧
    gqlSchema pretty ⟨[.objectDef ⟨"A", none,
        [⟨"x", none, .nonNull (.list (.nonNull (.list (.named "Int"))))⟩]⟩]⟩ =
      .ok ⟨"generatedFromGraphQL",
        [⟨"A", "", "Struct", [⟨"x", "", true, "Array", "Array"⟩], [], []⟩]⟩ ∧
    gqlStructField ⟨"x", none, .list (.nonNull (.list (.named "Int")))⟩ =
      .error (.panic "inline list type not supported") := by
  refine ⟨by decide, ?_, by decide⟩
  have h : gqlStruct ⟨"generatedFromGraphQL", []⟩ ⟨"A", none,
      [⟨"x", none, .nonNull (.list (.nonNull (.list (.named "Int"))))⟩]⟩ =
      .ok ⟨"generatedFromGraphQL",
        [⟨"A", "", "Struct", [⟨"x", "", true, "Array", "Array"⟩], [], []⟩]⟩ := by decide
  simp [gqlSchema, gqlSchemaLoop, gqlSchemaStep, h]

/-- C7 (counterexample): the field `x: Array` of a successfully translated
object has Type "Array" and empty Items, so "Items is set if and only if Type
is Array" does not hold for every output field. -/
theorem gqlSchema_items_iff_array_counterexample :
    ¬ (∀ (pretty : Definition → String) (doc : Document) (s : Schema),
        gqlSchema pretty doc = .ok s →
        ∀ td ∈ s.Types, ∀ fd ∈ td.Fields, (fd.Items ≠ "" ↔ fd.Typ = "Array")) := by
  intro h
  have h1 := h (fun _ => "") ⟨[.objectDef ⟨"A", none, [⟨"x", none, .named "Array"⟩]⟩]⟩
    ⟨"generatedFromGraphQL", [⟨"A", "", "Struct", [⟨"x", "", false, "Array", ""⟩], [], []⟩]⟩
    (by decide) _ (List.mem_singleton_self _) _ (List.mem_singleton_self _)
  exact (h1.2 rfl) rfl

/-- C7 (amended): in the output of a successful translation, every field of
every type definition comes from the field at the same position of an object
definition of the document, and: if Items is set then Type is "Array" and the
source type is a list, possibly under one outer NonNull, either of Named(n) or
NonNull(Named(n)), Items then being convertTypeName(n), or a NonNull list of
NonNull lists, for which the value of Items is left open; if the source type
is a list of Named(n) or NonNull(Named(n)), possibly under one outer NonNull,
then Type is "Array" and Items is convertTypeName(n), which is set exactly
when n is non-empty; if the source type is Named(n) or NonNull(Named(n)) then
Type is convertTypeName(n) and Items is unset; and Type "Array" with Items
unset occurs only when the source type is the named type Array (possibly
under NonNull) or a list with an empty element name. -/
theorem gqlSchema_items_invariant (pretty : Definition → String) (doc : Document)
    (s : Schema) (h : gqlSchema pretty doc = .ok s) :
    ∀ td ∈ s.Types, ∀ (i : Nat) (fd : StructFieldDef), td.Fields[i]? = some fd →
      (fd.Items ≠ "" → fd.Typ = "Array") ∧
      ∃ o f, Definition.objectDef o ∈ doc.Definitions ∧ td.Name = o.Name ∧
        o.Fields[i]? = some f ∧
        (∀ n, listElementName f.Typ = some n →
          fd.Typ = "Array" ∧ fd.Items = convertTypeName n ∧ (fd.Items ≠ "" ↔ n ≠ "")) ∧
        (fd.Typ = "Array" → fd.Items = "" →
          f.Typ = .named "Array" ∨ f.Typ = .nonNull (.named "Array") ∨
            listElementName f.Typ = some "") ∧
        (fd.Items ≠ "" →
          (∃ n, listElementName f.Typ = some n ∧ fd.Items = convertTypeName n) ∨
            ∃ t, f.Typ = .nonNull (.list (.nonNull (.list t)))) ∧
        (∀ n, f.Typ = .named n ∨ f.Typ = .nonNull (.named n) →
          fd.Typ = convertTypeName n ∧ fd.Items = "") := by
  obtain ⟨ds⟩ := doc
  obtain ⟨ig, hr⟩ := (gqlSchema_ok_iff_run pretty ds s).1 h
  obtain ⟨_, tds, hs, hprod⟩ := gqlSchemaRun_ok pretty _ _ _ _ _ hr
  intro td htd i fd hfd
  have htd' : td ∈ tds := by
    rw [hs] at htd
    simpa using htd
  obtain ⟨d, hd, hp⟩ := hprod td htd'
  cases d with
  | objectDef o =>
    obtain ⟨hn, _, hall⟩ := hp
    obtain ⟨f, hf, hok⟩ := forall₂_getElem?_right hall i fd hfd
    obtain ⟨h1, h2, h3⟩ := gqlStructField_items f fd hok
    obtain ⟨h4, h5⟩ := gqlStructField_items_source f fd hok
    exact ⟨h1, o, f, hd, hn, hf, h2, h3, h4, h5⟩
  | enumDef e =>
    obtain ⟨_, _, hf⟩ := hp
    rw [hf] at hfd
    simp at hfd
  | unionDef u =>
    obtain ⟨_, _, hf⟩ := hp
    rw [hf] at hfd
    simp at hfd
  | _ => exact absurd hp (by simp [Produces])

/-- Witness for C7: a document with an enum and an object with the fields
`a: [ID!]` and `b: Array`. -/
theorem gqlSchema_items_invariant_witness :
    gqlSchema (fun _ => "")
      ⟨[.enumDef ⟨"E", none, [⟨"A", none⟩]⟩,
        .objectDef ⟨"X", none, [⟨"a", none, .list (.nonNull (.named "ID"))⟩,
          ⟨"b", none, .named "Array"⟩]⟩]⟩
      = .ok ⟨"generatedFromGraphQL",
          [⟨"E", "", "Enum", [], [⟨"A", ""⟩], []⟩,
            ⟨"X", "", "Struct", [⟨"a", "", false, "Array", "String"⟩,
              ⟨"b", "", false, "Array", ""⟩], [], []⟩]⟩ ∧
    ∀ td ∈ (⟨"generatedFromGraphQL",
          [⟨"E", "", "Enum", [], [⟨"A", ""⟩], []⟩,
            ⟨"X", "", "Struct", [⟨"a", "", false, "Array", "String"⟩,
              ⟨"b", "", false, "Array", ""⟩], [], []⟩]⟩ : Schema).Types,
      ∀ (i : Nat) (fd : StructFieldDef), td.Fields[i]? = some fd →
        (fd.Items ≠ "" → fd.Typ = "Array") ∧
        ∃ o f, Definition.objectDef o ∈
            [Definition.enumDef ⟨"E", none, [⟨"A", none⟩]⟩,
              .objectDef ⟨"X", none, [⟨"a", none, .list (.nonNull (.named "ID"))⟩,
                ⟨"b", none, .named "Array"⟩]⟩] ∧
          td.Name = o.Name ∧ o.Fields[i]? = some f ∧
          (∀ n, listElementName f.Typ = some n →
            fd.Typ = "Array" ∧ fd.Items = convertTypeName n ∧ (fd.Items ≠ "" ↔ n ≠ "")) ∧
          (fd.Typ = "Array" → fd.Items = "" →
            f.Typ = .named "Array" ∨ f.Typ = .nonNull (.named "Array") ∨
              listElementName f.Typ = some "") ∧
          (fd.Items ≠ "" →
            (∃ n, listElementName f.Typ = some n ∧ fd.Items = convertTypeName n) ∨
              ∃ t, f.Typ = .nonNull (.list (.nonNull (.list t)))) ∧
          (∀ n, f.Typ = .named n ∨ f.Typ = .nonNull (.named n) →
            fd.Typ = convertTypeName n ∧ fd.Items = "") :=
  ⟨by decide, gqlSchema_items_invariant (fun _ => "")
      ⟨[.enumDef ⟨"E", none, [⟨"A", none⟩]⟩,
        .objectDef ⟨"X", none, [⟨"a", none, .list (.nonNull (.named "ID"))⟩,
          ⟨"b", none, .named "Array"⟩]⟩]⟩ _ (by decide)⟩

/-- C8: `convertTypeName` maps exactly Int, Float, Boolean and ID (to Int32,
Float64, Bool and String) and returns every other string unchanged; the
comparison is case-sensitive, so "int" and "id" are unchanged. -/
theorem convertTypeName_exact :
    convertTypeName "Int" = "Int32" ∧ convertTypeName "Float" = "Float64" ∧
    convertTypeName "Boolean" = "Bool" ∧ convertTypeName "ID" = "String" ∧
    (∀ n : String, n ≠ "Int" → n ≠ "Float" → n ≠ "Boolean" → n ≠ "ID" →
      convertTypeName n = n) ∧
    convertTypeName "int" = "int" ∧ convertTypeName "id" = "id" := by
  refine ⟨by decide, by decide, by decide, by decide, ?_, by decide, by decide⟩
  intro n h1 h2 h3 h4
  simp [convertTypeName, h1, h2, h3, h4]

/-- Witness for C8: the pass-through clause applied to the name "float". -/
theorem convertTypeName_exact_witness : convertTypeName "float" = "float" :=
  convertTypeName_exact.2.2.2.2.1 "float" (by decide) (by decide) (by decide) (by decide)

/-- C9: `commentValue s` is `s` with every newline replaced by one space and
every other character unchanged: same length, no newline left; the example
description folds to "line one line two", and an absent description
normalizes to the empty string. -/
theorem commentValue_spec :
    (∀ s : String,
      (commentValue s).data = s.data.map (fun c => if c = '\n' then ' ' else c) ∧
      (commentValue s).length = s.length ∧
      '\n' ∉ (commentValue s).data ∧
      (∀ (i : Nat) (c : Char), s.data[i]? = some c →
        (commentValue s).data[i]? = some (if c = '\n' then ' ' else c))) ∧
    commentValue "line one\nline two" = "line one line two" ∧
    stringValue none = "" ∧
    commentValue (stringValue none) = "" := by
  refine ⟨?_, by decide, rfl, by decide⟩
  intro s
  have h := commentValue_data s
  refine ⟨h, ?_, ?_, ?_⟩
  · show (commentValue s).data.length = s.data.length
    rw [h, List.length_map]
  · rw [h]
    intro hmem
    obtain ⟨c, _, hc⟩ := List.mem_map.1 hmem
    unfold foldNewline at hc
    split at hc
    · exact absurd hc (by decide)
    · rename_i hne; exact hne hc
  · intro i c hi
    rw [h, List.getElem?_map, hi]
    rfl

/-- C10: interface and input-object definitions are silent no-ops: a document
translates to the same outcome as the document with those definitions removed,
and a document made of one interface and one input-object definition
translates to a schema with no types. -/
theorem gqlSchema_skip_semantics (pretty : Definition → String) :
    (∀ doc : Document,
      gqlSchema pretty doc =
        gqlSchema pretty ⟨doc.Definitions.filter (fun d => !isSkipped d)⟩) ∧
    (∀ (i : InterfaceDefinition) (o : InputObjectDefinition),
      gqlSchema pretty ⟨[.interfaceDef i, .inputObjectDef o]⟩ =
        .ok { Name := "generatedFromGraphQL", Types := [] }) := by
  refine ⟨fun doc => ?_, fun i o => rfl⟩
  exact gqlSchemaLoop_filter_skipped pretty doc.Definitions _ _

/-- C11: a document made of a single scalar definition named `s` translates
successfully (to a schema with no types) if and only if `s` is "Timestamp" or
"UUID"; for every other name, such as "Date", an unsupported-custom-scalar
error is returned and no schema. -/
theorem gqlSchema_scalar_allow_list (pretty : Definition → String) (sd : ScalarDefinition) :
    (gqlSchema pretty ⟨[.scalarDef sd]⟩ = .ok ⟨"generatedFromGraphQL", []⟩ ↔
      sd.Name = "Timestamp" ∨ sd.Name = "UUID") ∧
    ((∃ s, gqlSchema pretty ⟨[.scalarDef sd]⟩ = .ok s) ↔
      sd.Name = "Timestamp" ∨ sd.Name = "UUID") ∧
    (sd.Name ≠ "Timestamp" → sd.Name ≠ "UUID" →
      gqlSchema pretty ⟨[.scalarDef sd]⟩ =
        .error (.error ("Unsupported custom scalar: " ++ pretty (.scalarDef sd) ++ "\n")) ∧
      returnedSchema (gqlSchema pretty ⟨[.scalarDef sd]⟩) = none) ∧
    gqlSchema pretty ⟨[.scalarDef ⟨"UUID", none⟩]⟩ = .ok ⟨"generatedFromGraphQL", []⟩ ∧
    gqlSchema pretty ⟨[.scalarDef ⟨"Date", none⟩]⟩ =
      .error (.error ("Unsupported custom scalar: " ++ pretty (.scalarDef ⟨"Date", none⟩) ++ "\n")) := by
  have key : ∀ sd : ScalarDefinition, gqlSchema pretty ⟨[.scalarDef sd]⟩ =
      if sd.Name = "Timestamp" then .ok ⟨"generatedFromGraphQL", []⟩
      else if sd.Name = "UUID" then .ok ⟨"generatedFromGraphQL", []⟩
      else .error (.error ("Unsupported custom scalar: " ++ pretty (.scalarDef sd) ++ "\n")) := by
    intro sd
    simp only [gqlSchema, gqlSchemaLoop, gqlSchemaStep]
    split_ifs <;> rfl
  refine ⟨?_, ?_, ?_, ?_, ?_⟩
  · rw [key]
    by_cases h1 : sd.Name = "Timestamp"
    · simp [h1]
    · by_cases h2 : sd.Name = "UUID"
      · simp [h2]
      · simp [h1, h2]
  · rw [key]
    by_cases h1 : sd.Name = "Timestamp"
    · simp [h1]
    · by_cases h2 : sd.Name = "UUID"
      · simp [h2]
      · simp [h1, h2]
  · intro h1 h2
    rw [key]
    simp only [h1, h2, if_false, returnedSchema, and_self]
  · rw [key]
    rfl
  · rw [key]
    rfl

/-- Witness for C11: the error clause applied to a scalar named Date. -/
theorem gqlSchema_scalar_allow_list_witness :
    gqlSchema (fun _ => "scalar Date") ⟨[.scalarDef ⟨"Date", none⟩]⟩ =
        .error (.error ("Unsupported custom scalar: " ++
          (fun _ => "scalar Date") (Definition.scalarDef ⟨"Date", none⟩) ++ "\n")) ∧
      returnedSchema (gqlSchema (fun _ => "scalar Date") ⟨[.scalarDef ⟨"Date", none⟩]⟩) = none :=
  (gqlSchema_scalar_allow_list (fun _ => "scalar Date") ⟨"Date", none⟩).2.2.1
    (by decide) (by decide)

/-- C12 (counterexample): the error message for an unrecognized definition is
not "Unsupported definition: " followed by the kind name alone; for an
operation definition it is "Unsupported definition: OperationDefinition\n",
ending in a newline. -/
theorem gqlSchema_unsupported_definition_message_counterexample :
    ¬ (∀ (pretty : Definition → String) (pre post : List Definition) (kind : String)
        (s : Schema), gqlSchema pretty ⟨pre⟩ = .ok s →
        gqlSchema pretty ⟨pre ++ [.otherDef kind] ++ post⟩ =
          .error (.error ("Unsupported definition: " ++ kind))) := by
  intro h
  have h1 := h (fun _ => "") [] [] "OperationDefinition" ⟨"generatedFromGraphQL", []⟩ rfl
  have h2 : gqlSchema (fun _ => "") ⟨[] ++ [.otherDef "OperationDefinition"] ++ []⟩ =
      .error (.error "Unsupported definition: OperationDefinition\n") := by decide
  rw [h2] at h1
  exact absurd h1 (by decide)

/-- C12 (amended): when every definition before a definition of an
unrecognized kind translates, the document yields an error whose message is
"Unsupported definition: " followed by the kind name and a newline, and no
schema, whatever follows. -/
theorem gqlSchema_unsupported_definition (pretty : Definition → String)
    (pre post : List Definition) (kind : String) (s : Schema)
    (hpre : gqlSchema pretty ⟨pre⟩ = .ok s) :
    gqlSchema pretty ⟨pre ++ [.otherDef kind] ++ post⟩ =
      .error (.error ("Unsupported definition: " ++ kind ++ "\n")) ∧
    returnedSchema (gqlSchema pretty ⟨pre ++ [.otherDef kind] ++ post⟩) = none := by
  obtain ⟨ig, hr⟩ := (gqlSchema_ok_iff_run pretty pre s).1 hpre
  have h : gqlSchema pretty ⟨pre ++ [.otherDef kind] ++ post⟩ =
      .error (.error ("Unsupported definition: " ++ kind ++ "\n")) := by
    simp only [gqlSchema, List.append_assoc, gqlSchemaLoop_append, hr, List.singleton_append,
      gqlSchemaLoop, gqlSchemaStep]
  exact ⟨h, by rw [h]; rfl⟩

/-- Witness for C12: a fragment definition between an enum and an object with
an unsupported field type. -/
theorem gqlSchema_unsupported_definition_witness :
    gqlSchema (fun _ => "") ⟨[.enumDef ⟨"E", none, []⟩] ++ [.otherDef "FragmentDefinition"] ++
        [.objectDef ⟨"A", none, [⟨"x", none, .list (.list (.named "Int"))⟩]⟩]⟩ =
      .error (.error ("Unsupported definition: " ++ "FragmentDefinition" ++ "\n")) ∧
    returnedSchema (gqlSchema (fun _ => "")
      ⟨[.enumDef ⟨"E", none, []⟩] ++ [.otherDef "FragmentDefinition"] ++
        [.objectDef ⟨"A", none, [⟨"x", none, .list (.list (.named "Int"))⟩]⟩]⟩) = none :=
  gqlSchema_unsupported_definition (fun _ => "") [.enumDef ⟨"E", none, []⟩]
    [.objectDef ⟨"A", none, [⟨"x", none, .list (.list (.named "Int"))⟩]⟩] "FragmentDefinition"
    ⟨"generatedFromGraphQL", [⟨"E", "", "Enum", [], [], []⟩]⟩ (by decide)

/-- C13: if the definitions `pre` translate, then for a rejected definition
`bad` (a scalar off the allow-list or an unrecognized kind) the document
`pre ++ [bad] ++ post` yields what `bad` alone yields: a returned error and no
schema, whatever `post` holds. -/
theorem gqlSchema_fail_fast (pretty : Definition → String) (pre post : List Definition)
    (bad : Definition) (s : Schema) (hbad : isRejected bad = true)
    (hpre : gqlSchema pretty ⟨pre⟩ = .ok s) :
    gqlSchema pretty ⟨pre ++ [bad] ++ post⟩ = gqlSchema pretty ⟨[bad]⟩ ∧
    (∃ msg, gqlSchema pretty ⟨pre ++ [bad] ++ post⟩ = .error (.error msg)) ∧
    returnedSchema (gqlSchema pretty ⟨pre ++ [bad] ++ post⟩) = none := by
  obtain ⟨ig, hr⟩ := (gqlSchema_ok_iff_run pretty pre s).1 hpre
  obtain ⟨msg, hmsg⟩ := gqlSchemaStep_rejected pretty bad hbad
  have h : gqlSchema pretty ⟨pre ++ [bad] ++ post⟩ = .error (.error msg) := by
    simp only [gqlSchema, List.append_assoc, gqlSchemaLoop_append, hr, List.singleton_append,
      gqlSchemaLoop, hmsg]
  have h' : gqlSchema pretty ⟨[bad]⟩ = .error (.error msg) := by
    simp only [gqlSchema, gqlSchemaLoop, hmsg]
  exact ⟨by rw [h, h'], ⟨msg, h⟩, by rw [h]; rfl⟩

/-- Witness for C13: a scalar Date after an enum, followed by a directive
definition and by an object with a list of lists. -/
theorem gqlSchema_fail_fast_witness :
    gqlSchema (fun _ => "scalar Date") ⟨[.enumDef ⟨"E", none, []⟩] ++ [.scalarDef ⟨"Date", none⟩] ++
        [.otherDef "DirectiveDefinition",
          .objectDef ⟨"A", none, [⟨"x", none, .list (.list (.named "Int"))⟩]⟩]⟩ =
      gqlSchema (fun _ => "scalar Date") ⟨[.scalarDef ⟨"Date", none⟩]⟩ ∧
    (∃ msg, gqlSchema (fun _ => "scalar Date")
      ⟨[.enumDef ⟨"E", none, []⟩] ++ [.scalarDef ⟨"Date", none⟩] ++
        [.otherDef "DirectiveDefinition",
          .objectDef ⟨"A", none, [⟨"x", none, .list (.list (.named "Int"))⟩]⟩]⟩ =
        .error (.error msg)) ∧
    returnedSchema (gqlSchema (fun _ => "scalar Date")
      ⟨[.enumDef ⟨"E", none, []⟩] ++ [.scalarDef ⟨"Date", none⟩] ++
        [.otherDef "DirectiveDefinition",
          .objectDef ⟨"A", none, [⟨"x", none, .list (.list (.named "Int"))⟩]⟩]⟩) = none :=
  gqlSchema_fail_fast (fun _ => "scalar Date") [.enumDef ⟨"E", none, []⟩]
    [.otherDef "DirectiveDefinition",
      .objectDef ⟨"A", none, [⟨"x", none, .list (.list (.named "Int"))⟩]⟩]
    (.scalarDef ⟨"Date", none⟩) ⟨"generatedFromGraphQL", [⟨"E", "", "Enum", [], [], []⟩]⟩
    (by decide) (by decide)

/-- C14: `gqlEnum` never fails and appends exactly one type definition, with
Type "Enum", the definition's name, the normalized description as Comment
(empty when absent), and one element per source value, in order, with the
value's name as Symbol and its normalized description as Comment (empty when
absent).  Values [A, B] give elements [A, B]. -/
theorem gqlEnum_fidelity :
    (∀ (schema : Schema) (d : EnumDefinition),
      gqlEnum schema d = .ok { schema with Types := schema.Types ++
        [{ Name := d.Name, Comment := commentValue (stringValue d.Description), Typ := "Enum",
           Elements := d.Values.map (fun v =>
             { Symbol := v.Name, Comment := commentValue (stringValue v.Description) }) }] }) ∧
    (∀ (schema : Schema) (name : String) (vs : List EnumValueDefinition),
      gqlEnum schema ⟨name, none, vs⟩ = .ok { schema with Types := schema.Types ++
        [{ Name := name, Comment := "", Typ := "Enum",
           Elements := vs.map (fun v =>
             { Symbol := v.Name, Comment := commentValue (stringValue v.Description) }) }] }) ∧
    gqlEnum ⟨"s", []⟩ ⟨"E", none, [⟨"A", none⟩, ⟨"B", some "second\nvalue"⟩]⟩ =
      .ok ⟨"s", [⟨"E", "", "Enum", [], [⟨"A", ""⟩, ⟨"B", "second value"⟩], []⟩]⟩ := by
  have key := gqlEnum_eq
  refine ⟨key, ?_, by decide⟩
  intro schema name vs
  rw [key]
  simp [stringValue, commentValue_empty]

/-- C15: `gqlUnion` never fails and appends exactly one type definition, with
Type "Union", the definition's name, the normalized description as Comment,
and the member type names as Variants, in order and verbatim: no primitive
mapping is applied, so members Int and ID stay Int and ID.  Members
[Cat, Dog] give variants [Cat, Dog]. -/
theorem gqlUnion_fidelity :
    (∀ (schema : Schema) (d : UnionDefinition),
      gqlUnion schema d = .ok { schema with Types := schema.Types ++
        [{ Name := d.Name, Comment := commentValue (stringValue d.Description), Typ := "Union",
           Variants := d.Types }] }) ∧
    gqlUnion ⟨"s", []⟩ ⟨"Pet", none, ["Cat", "Dog"]⟩ =
      .ok ⟨"s", [⟨"Pet", "", "Union", [], [], ["Cat", "Dog"]⟩]⟩ ∧
    gqlUnion ⟨"s", []⟩ ⟨"U", some "a\nb", ["Int", "ID"]⟩ =
      .ok ⟨"s", [⟨"U", "a b", "Union", [], [], ["Int", "ID"]⟩]⟩ := by
  exact ⟨gqlUnion_eq, by decide, by decide⟩

/-- C16: a successful `gqlStruct` appends exactly one type definition after
the existing ones, which stay unchanged and in place; it has Type "Struct",
the definition's name, the normalized description as Comment (empty when
absent), and as many fields as the source, the field at each position having
the source field's name and its normalized description as Comment. -/
theorem gqlStruct_shape (schema s' : Schema) (o : ObjectDefinition)
    (h : gqlStruct schema o = .ok s') :
    ∃ td, s' = { schema with Types := schema.Types ++ [td] } ∧
      td.Typ = "Struct" ∧ td.Name = o.Name ∧
      td.Comment = commentValue (stringValue o.Description) ∧
      (o.Description = none → td.Comment = "") ∧
      td.Fields.length = o.Fields.length ∧
      ∀ (i : Nat) (f : FieldDefinition), o.Fields[i]? = some f →
        ∃ fd, td.Fields[i]? = some fd ∧ fd.Name = f.Name ∧
          fd.Comment = commentValue (stringValue f.Description) := by
  obtain ⟨td, hs, hn, hc, ht, _, _, hall⟩ := gqlStruct_ok schema s' o h
  refine ⟨td, hs, ht, hn, hc, ?_, hall.length_eq.symm, ?_⟩
  · intro hd
    rw [hc, hd]
    exact commentValue_empty
  · intro i f hf
    obtain ⟨fd, hfd, hok⟩ := forall₂_getElem?_left hall i f hf
    obtain ⟨h1, h2⟩ := gqlStructField_name_comment f fd hok
    exact ⟨fd, hfd, h1, h2⟩

/-- Witness for C16: an object with a two-line description and two fields,
appended to a schema that already holds an enum. -/
theorem gqlStruct_shape_witness :
    ∃ td, (⟨"s", [⟨"E", "", "Enum", [], [], []⟩,
        ⟨"A", "two lines", "Struct",
          [⟨"x", "the x", true, "Int32", ""⟩, ⟨"y", "", false, "Array", "String"⟩], [], []⟩]⟩ :
        Schema) =
      { (⟨"s", [⟨"E", "", "Enum", [], [], []⟩]⟩ : Schema) with
        Types := (⟨"s", [⟨"E", "", "Enum", [], [], []⟩]⟩ : Schema).Types ++ [td] } ∧
      td.Typ = "Struct" ∧ td.Name = "A" ∧
      td.Comment = commentValue (stringValue (some "two\nlines")) ∧
      ((some "two\nlines" : Option String) = none → td.Comment = "") ∧
      td.Fields.length = 2 ∧
      ∀ (i : Nat) (f : FieldDefinition),
        [(⟨"x", some "the x", .nonNull (.named "Int")⟩ : FieldDefinition),
          ⟨"y", none, .list (.named "ID")⟩][i]? = some f →
        ∃ fd, td.Fields[i]? = some fd ∧ fd.Name = f.Name ∧
          fd.Comment = commentValue (stringValue f.Description) :=
  gqlStruct_shape ⟨"s", [⟨"E", "", "Enum", [], [], []⟩]⟩ _
    ⟨"A", some "two\nlines",
      [⟨"x", some "the x", .nonNull (.named "Int")⟩, ⟨"y", none, .list (.named "ID")⟩]⟩
    (by decide)

/-- C17: on a document in which every definition is an object, schema, enum,
union, interface or input-object definition or a scalar named Timestamp or
UUID, and every object field has one of the six supported type shapes,
`gqlSchema` returns a schema: no error and no panic. -/
theorem gqlSchema_total (pretty : Definition → String) (doc : Document)
    (h : ∀ d ∈ doc.Definitions, isWellFormedDefinition d = true) :
    ∃ s, gqlSchema pretty doc = .ok s :=
  gqlSchemaLoop_total pretty doc.Definitions h _ _

/-- Witness for C17: a document with every accepted kind of definition and
every supported field type shape. -/
theorem gqlSchema_total_witness :
    ∃ s, gqlSchema (fun _ => "")
      ⟨[.schemaDef ⟨[⟨"query", "Q"⟩]⟩, .interfaceDef ⟨"I", none, []⟩,
        .inputObjectDef ⟨"In", none, []⟩, .scalarDef ⟨"Timestamp", none⟩,
        .scalarDef ⟨"UUID", none⟩, .enumDef ⟨"E", none, [⟨"A", none⟩]⟩,
        .unionDef ⟨"U", none, ["X"]⟩,
        .objectDef ⟨"X", none,
          [⟨"a", none, .named "Int"⟩, ⟨"b", none, .nonNull (.named "Int")⟩,
            ⟨"c", none, .list (.named "Int")⟩, ⟨"d", none, .list (.nonNull (.named "Int"))⟩,
            ⟨"e", none, .nonNull (.list (.named "Int"))⟩,
            ⟨"f", none, .nonNull (.list (.nonNull (.named "Int")))⟩]⟩]⟩ = .ok s :=
  gqlSchema_total (fun _ => "")
    ⟨[.schemaDef ⟨[⟨"query", "Q"⟩]⟩, .interfaceDef ⟨"I", none, []⟩,
      .inputObjectDef ⟨"In", none, []⟩, .scalarDef ⟨"Timestamp", none⟩,
      .scalarDef ⟨"UUID", none⟩, .enumDef ⟨"E", none, [⟨"A", none⟩]⟩,
      .unionDef ⟨"U", none, ["X"]⟩,
      .objectDef ⟨"X", none,
        [⟨"a", none, .named "Int"⟩, ⟨"b", none, .nonNull (.named "Int")⟩,
          ⟨"c", none, .list (.named "Int")⟩, ⟨"d", none, .list (.nonNull (.named "Int"))⟩,
          ⟨"e", none, .nonNull (.list (.named "Int"))⟩,
          ⟨"f", none, .nonNull (.list (.nonNull (.named "Int")))⟩]⟩]⟩
    (by decide)

/-- The part of uniform non-null unwrapping that the code keeps: for a type
`t` that is not a NonNull and not a list of NonNull lists, the fields of type
`t` and NonNull(`t`) both fail, or both succeed and differ only in Required. -/
theorem gqlStructField_nonNull_uniform (name : String) (descr : Option String) (t : GqlType)
    (h₁ : ∀ u, t ≠ .nonNull u) (h₂ : ∀ u, t ≠ .list (.nonNull (.list u))) :
    ((∃ e, gqlStructField ⟨name, descr, t⟩ = .error e) ∧
      (∃ e, gqlStructField ⟨name, descr, .nonNull t⟩ = .error e)) ∨
    (∃ fd, gqlStructField ⟨name, descr, t⟩ = .ok fd ∧ fd.Required = false ∧
      gqlStructField ⟨name, descr, .nonNull t⟩ = .ok { fd with Required := true }) := by
  rcases t with n | (n | t | (n | t | t)) | t
  · exact Or.inr ⟨_, rfl, rfl, rfl⟩
  · exact Or.inr ⟨_, rfl, rfl, rfl⟩
  · exact Or.inl ⟨⟨_, rfl⟩, ⟨_, rfl⟩⟩
  · exact Or.inr ⟨_, rfl, rfl, rfl⟩
  · exact absurd rfl (h₂ t)
  · exact Or.inl ⟨⟨_, rfl⟩, ⟨_, rfl⟩⟩
  · exact absurd rfl (h₁ t)

/-- C18 (evaluation at the failing input): for every type `t`, a field whose
type is the list of NonNull lists of `t` panics, while the same field under an
outer NonNull is translated (to an array whose Items is "Array"): the two
outcomes differ in more than Required. -/
theorem gqlStructField_nonNull_not_uniform (name : String) (descr : Option String)
    (t : GqlType) :
    gqlStructField ⟨name, descr, .list (.nonNull (.list t))⟩ =
      .error (.panic "inline list type not supported") ∧
    gqlStructField ⟨name, descr, .nonNull (.list (.nonNull (.list t)))⟩ =
      .ok ⟨name, commentValue (stringValue descr), true, "Array", "Array"⟩ ∧
    ¬ (((∃ e, gqlStructField ⟨name, descr, .list (.nonNull (.list t))⟩ = .error e) ∧
        (∃ e, gqlStructField ⟨name, descr, .nonNull (.list (.nonNull (.list t)))⟩ = .error e)) ∨
      (∃ fd fd', gqlStructField ⟨name, descr, .list (.nonNull (.list t))⟩ = .ok fd ∧
        gqlStructField ⟨name, descr, .nonNull (.list (.nonNull (.list t)))⟩ = .ok fd')) := by
  have h1 : gqlStructField ⟨name, descr, .list (.nonNull (.list t))⟩ =
      .error (.panic "inline list type not supported") := rfl
  have h2 : gqlStructField ⟨name, descr, .nonNull (.list (.nonNull (.list t)))⟩ =
      .ok ⟨name, commentValue (stringValue descr), true, "Array", "Array"⟩ := by
    simp only [gqlStructField, typeName]
    rfl
  refine ⟨h1, h2, ?_⟩
  rw [h1, h2]
  rintro (⟨_, e, he⟩ | ⟨fd, fd', hfd, _⟩)
  · cases he
  · cases hfd

/-- C19: if `d1` holds no schema definition and `d1` and `d2` both translate,
then `d1 ++ d2` translates, and its type list is the type list for `d1`
followed by the type list for `d2`. -/
theorem gqlSchema_append_independent (pretty : Definition → String)
    (d1 d2 : List Definition) (s1 s2 : Schema)
    (hno : ∀ d ∈ d1, isSchemaDefinition d = false)
    (h1 : gqlSchema pretty ⟨d1⟩ = .ok s1) (h2 : gqlSchema pretty ⟨d2⟩ = .ok s2) :
    ∃ s, gqlSchema pretty ⟨d1 ++ d2⟩ = .ok s ∧ s.Types = s1.Types ++ s2.Types := by
  obtain ⟨ig1, hr1⟩ := (gqlSchema_ok_iff_run pretty d1 s1).1 h1
  obtain ⟨ig2, hr2⟩ := (gqlSchema_ok_iff_run pretty d2 s2).1 h2
  obtain ⟨hig1, _⟩ := gqlSchemaRun_ok pretty _ _ _ _ _ hr1
  rw [declaredRoots_eq_nil d1 hno] at hig1
  simp only [List.append_nil] at hig1
  subst hig1
  obtain ⟨tds, hframe⟩ := gqlSchemaRun_frame pretty _ _ _ _ _ hr2
  have hs2 := hframe { Name := "generatedFromGraphQL" }
  rw [hr2] at hs2
  simp only [Except.ok.injEq, Prod.mk.injEq, List.nil_append, and_true] at hs2
  refine ⟨{ s1 with Types := s1.Types ++ tds }, ?_, by rw [hs2]⟩
  apply (gqlSchema_ok_iff_run pretty (d1 ++ d2) _).2
  exact ⟨ig2, by rw [gqlSchemaRun_append, hr1]; exact hframe s1⟩

/-- Witness for C19: an enum and an object, followed by a schema definition
and a union. -/
theorem gqlSchema_append_independent_witness :
    ∃ s, gqlSchema (fun _ => "")
        ⟨[.enumDef ⟨"E", none, [⟨"A", none⟩]⟩, .objectDef ⟨"Q", none, []⟩] ++
          [.schemaDef ⟨[⟨"query", "Q"⟩]⟩, .unionDef ⟨"U", none, ["X"]⟩]⟩ = .ok s ∧
      s.Types =
        (⟨"generatedFromGraphQL",
          [⟨"E", "", "Enum", [], [⟨"A", ""⟩], []⟩, ⟨"Q", "", "Struct", [], [], []⟩]⟩ :
          Schema).Types ++
        (⟨"generatedFromGraphQL", [⟨"U", "", "Union", [], [], ["X"]⟩]⟩ : Schema).Types :=
  gqlSchema_append_independent (fun _ => "")
    [.enumDef ⟨"E", none, [⟨"A", none⟩]⟩, .objectDef ⟨"Q", none, []⟩]
    [.schemaDef ⟨[⟨"query", "Q"⟩]⟩, .unionDef ⟨"U", none, ["X"]⟩] _ _
    (by decide) (by decide) (by decide)

/-- C20: an object definition whose name some schema definition of `pre`
declares as an operation type is not translated: the document
`pre ++ [obj] ++ post` has the same outcome as `pre ++ post`, whatever the
field types of the object are. -/
theorem gqlSchema_ignored_object (pretty : Definition → String) (pre post : List Definition)
    (obj : ObjectDefinition)
    (h : ∃ sd, Definition.schemaDef sd ∈ pre ∧ ∃ opt ∈ sd.OperationTypes, opt.Typ = obj.Name) :
    gqlSchema pretty ⟨pre ++ [.objectDef obj] ++ post⟩ = gqlSchema pretty ⟨pre ++ post⟩ := by
  have hm : obj.Name ∈ declaredRoots pre := (mem_declaredRoots_iff pre obj.Name).2 h
  simp only [gqlSchema, List.append_assoc, gqlSchemaLoop_append]
  cases hr : gqlSchemaRun pretty { Name := "generatedFromGraphQL" } [] pre with
  | error e => rfl
  | ok p =>
    obtain ⟨s1, ig1⟩ := p
    obtain ⟨hig1, _⟩ := gqlSchemaRun_ok pretty _ _ _ _ _ hr
    simp only [List.nil_append] at hig1
    subst hig1
    simp only [gqlSchemaRun_singleton, gqlSchemaStep, hm, if_true]

/-- Witness for C20: the ignored object QueryRoot holds a list of lists, and
the document still translates like the document without it. -/
theorem gqlSchema_ignored_object_witness :
    gqlSchema (fun _ => "") ⟨[.schemaDef ⟨[⟨"query", "QueryRoot"⟩]⟩] ++
        [.objectDef ⟨"QueryRoot", none, [⟨"x", none, .list (.list (.named "Int"))⟩]⟩] ++
        [.enumDef ⟨"E", none, []⟩]⟩ =
      gqlSchema (fun _ => "") ⟨[.schemaDef ⟨[⟨"query", "QueryRoot"⟩]⟩] ++
        [.enumDef ⟨"E", none, []⟩]⟩ ∧
    gqlSchema (fun _ => "") ⟨[.schemaDef ⟨[⟨"query", "QueryRoot"⟩]⟩] ++
        [.enumDef ⟨"E", none, []⟩]⟩ =
      .ok ⟨"generatedFromGraphQL", [⟨"E", "", "Enum", [], [], []⟩]⟩ ∧
    gqlSchema (fun _ => "")
        ⟨[.objectDef ⟨"QueryRoot", none, [⟨"x", none, .list (.list (.named "Int"))⟩]⟩]⟩ =
      .error (.panic "list type not supported") :=
  ⟨gqlSchema_ignored_object (fun _ => "") [.schemaDef ⟨[⟨"query", "QueryRoot"⟩]⟩]
      [.enumDef ⟨"E", none, []⟩]
      ⟨"QueryRoot", none, [⟨"x", none, .list (.list (.named "Int"))⟩]⟩
      ⟨⟨[⟨"query", "QueryRoot"⟩]⟩, List.mem_singleton_self _, ⟨"query", "QueryRoot"⟩,
        List.mem_singleton_self _, rfl⟩,
    by decide, by decide⟩

end Graphql2sadl
